import Mathlib

/-!
# Calculator state engine (`src/calculator.js`)

A shallow embedding of the `Calculator` class: the engine fields, the
ECMAScript number operations the class relies on (`parseFloat`, `toFixed`,
`toString`, `toExponential`, `+ - * /`), and the methods `processInput`,
`inputNumber`, `inputDecimal`, `inputOperator`, `calculate`,
`performCalculation`, `clear`, `toggleSign`, `percentage`,
`handleScientificFunction`, `backspace`, `formatNumber`, `getOperatorSymbol`.

Conventions of the embedding.

* A JavaScript string is a Lean `String`; one `Char` stands for one UTF-16 code
  unit.
* A JavaScript number is a `JSNum`: an IEEE-754 binary64 value.  Every finite
  double is an integer multiple of `2^-1074`, so a finite value is stored as a
  sign and a magnitude counted in units of `2^-1074`.
* DOM text nodes (`display`, `history`, `error`) are string fields of the state.
  The timers started by `showError` are not part of the state: the state
  describes the engine right after a call returns.
* `Math.sin`, `Math.cos`, `Math.tan`, `Math.log`, `Math.log10`, `Math.sqrt` are
  implementation-approximated in ECMAScript and are taken as a parameter.
-/

namespace Calculator

/-! ## IEEE-754 binary64 values -/

/-- A JavaScript number.  `fin neg mag` is the finite value `± mag * 2^-1074`;
`fin true 0` is negative zero. -/
inductive JSNum where
  | nan
  | inf (neg : Bool)
  | fin (neg : Bool) (mag : Nat)
  deriving DecidableEq

/-- The magnitude of the number one: `2^1074` units of `2^-1074`. -/
@[irreducible] def one : Nat := 2 ^ 1074

/-- The integer `z` as a double (exact while `|z| ≤ 2^53`). -/
def ofInt (z : Int) : JSNum := .fin (decide (z < 0)) (z.natAbs * one)

/-- The quotient `p / q` rounded to the nearest integer, ties to even. -/
def roundHalfEven (p q : Nat) : Nat :=
  if 2 * (p % q) < q then p / q
  else if q < 2 * (p % q) then p / q + 1
  else if (p / q) % 2 = 0 then p / q else p / q + 1

/-- The quotient `p / q` rounded to the nearest integer, ties upwards. -/
def roundHalfUp (p q : Nat) : Nat :=
  if 2 * (p % q) < q then p / q else p / q + 1

/-- Worker of `log2`: `fuel` bounds the number of halvings. -/
def log2Fuel : Nat → Nat → Nat
  | 0, _ => 0
  | fuel + 1, n => if n < 2 then 0 else log2Fuel fuel (n / 2) + 1

/-- The position of the leading binary digit: `2^(log2 n) ≤ n < 2^(log2 n + 1)`
for positive `n`. -/
def log2 (n : Nat) : Nat := log2Fuel n n

/-- Round-to-nearest-even of the positive real `p / q` (in units of `2^-1074`)
to a binary64 magnitude; `none` when the result overflows to infinity.
Below `2^53` units (subnormals and the first normal binade) the spacing of
doubles is one unit; above, a double has 53 significant bits. -/
def roundMag (p q : Nat) : Option Nat :=
  if p / q < 2 ^ 53 then some (roundHalfEven p q)
  else
    let sh := log2 (p / q) - 52
    let r := roundHalfEven p (q * 2 ^ sh) * 2 ^ sh
    if r < 2 ^ 2098 then some r else none

/-- A signed double from a rounded magnitude. -/
def ofMag (neg : Bool) : Option Nat → JSNum
  | some m => .fin neg m
  | none => .inf neg

/-- The double nearest to `s * 10^e`, as a magnitude. -/
def decToMag (s : Nat) (e : Int) : Option Nat :=
  roundMag (s * 10 ^ e.toNat * one) (10 ^ (-e).toNat)

namespace JSNum

/-- Unary minus. -/
def neg : JSNum → JSNum
  | nan => nan
  | inf s => inf (!s)
  | fin s m => fin (!s) m

/-- The `+` of two numbers. -/
def add : JSNum → JSNum → JSNum
  | nan, _ => nan
  | inf _, nan => nan
  | inf a, inf b => if a = b then inf a else nan
  | inf a, fin _ _ => inf a
  | fin _ _, nan => nan
  | fin _ _, inf b => inf b
  | fin a m, fin b n =>
    if a = b then ofMag a (roundMag (m + n) 1)
    else if n < m then ofMag a (roundMag (m - n) 1)
    else if m < n then ofMag b (roundMag (n - m) 1)
    else fin false 0

/-- The `-` of two numbers. -/
def sub (x y : JSNum) : JSNum := add x (neg y)

/-- The `*` of two numbers. -/
def mul : JSNum → JSNum → JSNum
  | nan, _ => nan
  | inf _, nan => nan
  | inf a, inf b => inf (a != b)
  | inf a, fin b n => if n = 0 then nan else inf (a != b)
  | fin _ _, nan => nan
  | fin a m, inf b => if m = 0 then nan else inf (a != b)
  | fin a m, fin b n => ofMag (a != b) (roundMag (m * n) one)

/-- The `/` of two numbers. -/
def div : JSNum → JSNum → JSNum
  | nan, _ => nan
  | inf _, nan => nan
  | inf _, inf _ => nan
  | inf a, fin b _ => inf (a != b)
  | fin _ _, nan => nan
  | fin a _, inf b => fin (a != b) 0
  | fin a m, fin b n =>
    if n = 0 then (if m = 0 then nan else inf (a != b))
    else ofMag (a != b) (roundMag (m * one) n)

/-- The test `x === 0`: true for both zeros. -/
def isZero : JSNum → Bool
  | fin _ 0 => true
  | _ => false

/-- The truthiness of a number: `NaN`, `0` and `-0` are falsy. -/
def truthy : JSNum → Bool
  | nan => false
  | inf _ => true
  | fin _ m => m != 0

end JSNum

/-! ## Number to string and string to number conversions -/

/-- The digits of the decimal representation of `n`, no leading zeroes
(`"0"` for zero). -/
def digitsOf (n : Nat) : List Char := Nat.toDigits 10 n

/-- The value of a sequence of decimal digits. -/
def digitsVal (ds : List Char) : Nat :=
  ds.foldl (fun acc c => 10 * acc + (c.toNat - 48)) 0

/-- The decimal exponent of a positive magnitude `x`: the integer `n` with
`10^(n-1) ≤ x * 2^-1074 < 10^n`. -/
def decExp (x : Nat) : Int :=
  if one ≤ x then ((digitsOf (x / one)).length : Int)
  else 1 - ((digitsOf ((one - 1) / x)).length : Int)

/-- The real `x * 2^-1074 * 10^e` as a fraction (numerator, denominator). -/
def scaled (x : Nat) (e : Int) : Nat × Nat :=
  (x * 10 ^ e.toNat, one * 10 ^ (-e).toNat)

/-- Search for the shortest decimal that reads back as the magnitude `x`
(step 5 of `Number::toString`): for `k = 1, 2, ...` significant digits the two
`k`-digit decimals around `x` are tried, the closer one first (the even one on a
tie).  The result is `(s, k, n)` with value `s * 10^(n-k)`. -/
def shortestFrom (x : Nat) (n0 : Int) : Nat → Nat → Nat × Nat × Int
  | 0, k => ((scaled x (k - n0)).1 / (scaled x (k - n0)).2, k, n0)
  | fuel + 1, k =>
    let num := (scaled x (k - n0)).1
    let den := (scaled x (k - n0)).2
    let lo := num / den
    if decToMag lo (n0 - k) = some x ∧
        (decToMag (lo + 1) (n0 - k) ≠ some x ∨ 2 * num < (2 * lo + 1) * den ∨
          (2 * num = (2 * lo + 1) * den ∧ lo % 2 = 0)) then (lo, k, n0)
    else if decToMag (lo + 1) (n0 - k) = some x then
      (if lo + 1 = 10 ^ k then (10 ^ (k - 1), k, n0 + 1) else (lo + 1, k, n0))
    else shortestFrom x n0 fuel (k + 1)

/-- The text of `Number::toString(x, 10)`, the conversion behind template
literals and `toString()`. -/
def numToString : JSNum → String
  | .nan => "NaN"
  | .inf neg => if neg then "-Infinity" else "Infinity"
  | .fin neg mag =>
    if mag = 0 then "0"
    else
      let r := shortestFrom mag (decExp mag) 17 1
      let ds := digitsOf r.1
      let k := r.2.1
      let n := r.2.2
      let body :=
        if (k : Int) ≤ n ∧ n ≤ 21 then ds ++ List.replicate (n - k).toNat '0'
        else if 0 < n ∧ n ≤ 21 then ds.take n.toNat ++ ['.'] ++ ds.drop n.toNat
        else if -6 < n ∧ n ≤ 0 then ['0', '.'] ++ List.replicate (-n).toNat '0' ++ ds
        else if k = 1 then
          ds ++ ['e'] ++ (if n - 1 < 0 then ['-'] else ['+']) ++ digitsOf (n - 1).natAbs
        else
          ds.take 1 ++ ['.'] ++ ds.drop 1 ++ ['e'] ++
            (if n - 1 < 0 then ['-'] else ['+']) ++ digitsOf (n - 1).natAbs
      String.mk ((if neg then ['-'] else []) ++ body)

/-- The method `Number.prototype.toFixed` with `f` fraction digits
(`0 ≤ f ≤ 100`). -/
def toFixed (x : JSNum) (f : Nat) : String :=
  match x with
  | .nan => "NaN"
  | .inf neg => if neg then "-Infinity" else "Infinity"
  | .fin neg mag =>
    if 10 ^ 21 * one ≤ mag then numToString (.fin neg mag)
    else
      let m := digitsOf (roundHalfUp (mag * 10 ^ f) one)
      let m := if m.length ≤ f then List.replicate (f + 1 - m.length) '0' ++ m else m
      let m := if f = 0 then m else m.take (m.length - f) ++ ['.'] ++ m.drop (m.length - f)
      String.mk ((if neg ∧ mag ≠ 0 then ['-'] else []) ++ m)

/-- The method `Number.prototype.toExponential` with `f` fraction digits
(`0 ≤ f ≤ 100`). -/
def toExponential (x : JSNum) (f : Nat) : String :=
  match x with
  | .nan => "NaN"
  | .inf neg => if neg then "-Infinity" else "Infinity"
  | .fin neg mag =>
    let e0 : Int := if mag = 0 then 0 else decExp mag - 1
    let n0 := if mag = 0 then 0
      else roundHalfUp (scaled mag (f - e0)).1 (scaled mag (f - e0)).2
    let e : Int := if n0 = 10 ^ (f + 1) then e0 + 1 else e0
    let n := if n0 = 10 ^ (f + 1) then 10 ^ f else n0
    let m := if mag = 0 then List.replicate (f + 1) '0' else digitsOf n
    let m := if f = 0 then m else m.take 1 ++ ['.'] ++ m.drop 1
    String.mk ((if neg ∧ mag ≠ 0 then ['-'] else []) ++ m ++ ['e'] ++
      (if e < 0 then ['-'] else ['+']) ++ digitsOf e.natAbs)

/-- The white space and line terminator code units skipped by `parseFloat`
(`StrWhiteSpaceChar`). -/
def isStrWhiteSpaceChar (c : Char) : Bool :=
  c.toNat ∈ [0x9, 0xA, 0xB, 0xC, 0xD, 0x20, 0xA0, 0x1680, 0x2000, 0x2001, 0x2002,
    0x2003, 0x2004, 0x2005, 0x2006, 0x2007, 0x2008, 0x2009, 0x200A, 0x2028, 0x2029,
    0x202F, 0x205F, 0x3000, 0xFEFF]

/-- The `ExponentPart` at the head of `cs`, if there is one: `e` or `E`, an
optional sign and at least one digit.  Without one the exponent is zero. -/
def parseExponent : List Char → Int
  | c :: rest =>
    if c = 'e' ∨ c = 'E' then
      match rest with
      | '+' :: ds =>
        if (ds.takeWhile Char.isDigit).isEmpty then 0
        else (digitsVal (ds.takeWhile Char.isDigit) : Int)
      | '-' :: ds =>
        if (ds.takeWhile Char.isDigit).isEmpty then 0
        else - (digitsVal (ds.takeWhile Char.isDigit) : Int)
      | ds =>
        if (ds.takeWhile Char.isDigit).isEmpty then 0
        else (digitsVal (ds.takeWhile Char.isDigit) : Int)
    else 0
  | [] => 0

/-- The longest prefix of `cs` that is a `StrUnsignedDecimalLiteral`, as a
magnitude: `none` when no prefix is one (the result is then `NaN`), otherwise
`some none` for `Infinity` or an overflowing literal and `some (some m)` for a
finite value. -/
def parseUnsigned (cs : List Char) : Option (Option Nat) :=
  if "Infinity".data.isPrefixOf cs then some none
  else
    let ip := cs.takeWhile Char.isDigit
    let r1 := cs.dropWhile Char.isDigit
    match r1 with
    | '.' :: r2 =>
      let fp := r2.takeWhile Char.isDigit
      let r3 := r2.dropWhile Char.isDigit
      if ip.isEmpty ∧ fp.isEmpty then none
      else some (decToMag (digitsVal (ip ++ fp)) (parseExponent r3 - fp.length))
    | _ =>
      if ip.isEmpty then none
      else some (decToMag (digitsVal ip) (parseExponent r1))

/-- The global function `parseFloat` on a list of code units whose leading white
space has been removed. -/
def parseSigned : List Char → JSNum
  | '-' :: cs =>
    match parseUnsigned cs with
    | some m => ofMag true m
    | none => .nan
  | '+' :: cs =>
    match parseUnsigned cs with
    | some m => ofMag false m
    | none => .nan
  | cs =>
    match parseUnsigned cs with
    | some m => ofMag false m
    | none => .nan

/-- The global function `parseFloat`. -/
def parseFloat (s : String) : JSNum :=
  parseSigned (s.data.dropWhile isStrWhiteSpaceChar)

/-- The constant `Math.PI`, the double `0x400921FB54442D18`. -/
def mathPI : JSNum := .fin false (7074237752028440 * 2 ^ 1023)

/-- The constant `Math.E`, the double `0x4005BF0A8B145769`. -/
def mathE : JSNum := .fin false (6121026514868073 * 2 ^ 1023)

/-- The implementation-approximated functions of the `Math` object used by
`handleScientificFunction`. -/
structure MathFns where
  sin : JSNum → JSNum
  cos : JSNum → JSNum
  tan : JSNum → JSNum
  log : JSNum → JSNum
  log10 : JSNum → JSNum
  sqrt : JSNum → JSNum

/-! ## The calculator -/

/-- The fields of a `Calculator` instance together with the text of the three
DOM nodes it writes.  `previousInput` is `none` for the empty string `''` and
`some x` for a number. -/
structure State where
  currentInput : String
  previousInput : Option JSNum
  operator : String
  waitingForOperand : Bool
  isScientific : Bool
  historyStack : List String
  display : String
  history : String
  error : String
  deriving DecidableEq

/-- The state built by the constructor and `init` (the `history` and `error`
nodes start empty). -/
def initial : State :=
  { currentInput := "0", previousInput := none, operator := "",
    waitingForOperand := false, isScientific := false, historyStack := [],
    display := "0", history := "", error := "" }

/-- The method `formatNumber`. -/
def formatNumber (num : String) : String :=
  if num.length > 12 then toExponential (parseFloat num) 6 else num

/-- The method `updateDisplay`. -/
def updateDisplay (s : State) : State :=
  { s with display := formatNumber s.currentInput }

/-- The method `updateHistory`. -/
def updateHistory (text : String) (s : State) : State :=
  { s with history := text }

/-- The method `showError`, without its timers. -/
def showError (message : String) (s : State) : State :=
  { s with error := message }

/-- The method `clearError`. -/
def clearError (s : State) : State :=
  { s with error := "" }

/-- The method `getOperatorSymbol` (property names inherited from
`Object.prototype` are not operators and are not modelled). -/
def getOperatorSymbol (op : String) : String :=
  if op = "+" then "+"
  else if op = "-" then "−"
  else if op = "*" then "×"
  else if op = "/" then "÷"
  else op

/-- The text of `previousInput` in a template literal. -/
def prevToString : Option JSNum → String
  | none => ""
  | some x => numToString x

/-- The expression `parseFloat(x.toFixed(7))` in a template literal: the
reformatting of a result. -/
def reformat (x : JSNum) : String :=
  numToString (parseFloat (toFixed x 7))

/-- The method `inputNumber`. -/
def inputNumber (num : String) (s : State) : State :=
  if s.waitingForOperand then
    { s with currentInput := num, waitingForOperand := false }
  else
    { s with currentInput := if s.currentInput = "0" then num else s.currentInput ++ num }

/-- The method `inputDecimal`. -/
def inputDecimal (s : State) : State :=
  if s.waitingForOperand then
    { s with currentInput := "0.", waitingForOperand := false }
  else if '.' ∉ s.currentInput.data then
    { s with currentInput := s.currentInput ++ "." }
  else s

/-- The method `performCalculation`: the value returned and the state after
the call (`showError` is its only effect). -/
def performCalculation (firstOperand secondOperand : JSNum) (operator : String)
    (s : State) : JSNum × State :=
  if operator = "+" then (firstOperand.add secondOperand, s)
  else if operator = "-" then (firstOperand.sub secondOperand, s)
  else if operator = "*" then (firstOperand.mul secondOperand, s)
  else if operator = "/" then
    if secondOperand.isZero then (firstOperand, showError "Cannot divide by zero" s)
    else (firstOperand.div secondOperand, s)
  else (secondOperand, s)

/-- The method `inputOperator`. -/
def inputOperator (nextOperator : String) (s : State) : State :=
  let inputValue := parseFloat s.currentInput
  let s1 : State :=
    match s.previousInput with
    | none => { s with previousInput := some inputValue }
    | some p =>
      if s.operator ≠ "" then
        let currentValue := if p.truthy then p else ofInt 0
        let r := performCalculation currentValue inputValue s.operator s
        { r.2 with currentInput := reformat r.1, previousInput := some r.1 }
      else s
  let s2 : State := { s1 with waitingForOperand := true, operator := nextOperator }
  updateHistory (prevToString s2.previousInput ++ " " ++ getOperatorSymbol nextOperator) s2

/-- The method `calculate`. -/
def calculate (s : State) : State :=
  let inputValue := parseFloat s.currentInput
  match s.previousInput with
  | none => s
  | some p =>
    if s.operator ≠ "" then
      let r := performCalculation p inputValue s.operator s
      let expression := numToString p ++ " " ++ getOperatorSymbol s.operator ++ " " ++
        numToString inputValue ++ " = " ++ numToString r.1
      let s2 : State := { r.2 with historyStack := r.2.historyStack ++ [expression] }
      let s3 := updateHistory expression s2
      { s3 with currentInput := reformat r.1, previousInput := none, operator := "",
                waitingForOperand := true }
    else s

/-- The method `clear`. -/
def clear (s : State) : State :=
  let s1 : State := { s with currentInput := "0", previousInput := none, operator := "",
                             waitingForOperand := false }
  { clearError s1 with history := "" }

/-- The method `toggleSign`. -/
def toggleSign (s : State) : State :=
  if s.currentInput ≠ "0" then
    { s with currentInput :=
        if s.currentInput.data.head? = some '-' then String.mk (s.currentInput.data.drop 1)
        else "-" ++ s.currentInput }
  else s

/-- The method `percentage`. -/
def percentage (s : State) : State :=
  { s with currentInput := numToString ((parseFloat s.currentInput).div (ofInt 100)) }

/-- The method `handleScientificFunction`. -/
def handleScientificFunction (M : MathFns) (func : String) (s : State) : State :=
  let value := parseFloat s.currentInput
  if func = "sin" then
    { s with currentInput := numToString (M.sin ((value.mul mathPI).div (ofInt 180))) }
  else if func = "cos" then
    { s with currentInput := numToString (M.cos ((value.mul mathPI).div (ofInt 180))) }
  else if func = "tan" then
    { s with currentInput := numToString (M.tan ((value.mul mathPI).div (ofInt 180))) }
  else if func = "ln" then { s with currentInput := numToString (M.log value) }
  else if func = "log" then { s with currentInput := numToString (M.log10 value) }
  else if func = "sqrt" then { s with currentInput := numToString (M.sqrt value) }
  else if func = "x²" then { s with currentInput := numToString (value.mul value) }
  else if func = "π" then { s with currentInput := numToString mathPI }
  else if func = "e" then { s with currentInput := numToString mathE }
  else s

/-- The method `processInput`; the test of the regular expression `\d` succeeds
when `value` contains a decimal digit anywhere. -/
def processInput (M : MathFns) (value : String) (s : State) : State :=
  let s0 := clearError s
  let s1 :=
    if value.data.any Char.isDigit then inputNumber value s0
    else if value = "." then inputDecimal s0
    else if value ∈ ["+", "-", "*", "/"] then inputOperator value s0
    else if value = "=" then calculate s0
    else if value = "AC" then clear s0
    else if value = "±" then toggleSign s0
    else if value = "%" then percentage s0
    else handleScientificFunction M value s0
  updateDisplay s1

/-- The method `backspace`. -/
def backspace (s : State) : State :=
  updateDisplay
    (if s.currentInput.length > 1 then
      { s with currentInput := String.mk s.currentInput.data.dropLast }
    else { s with currentInput := "0" })

/-- Submit a sequence of tokens, one `processInput` call each. -/
def run (M : MathFns) (tokens : List String) (s : State) : State :=
  tokens.foldl (fun st t => processInput M t st) s

/-- A `Math` object whose approximated functions all answer `NaN`; it makes the
closed examples below concrete. -/
def nanMath : MathFns :=
  { sin := fun _ => .nan, cos := fun _ => .nan, tan := fun _ => .nan,
    log := fun _ => .nan, log10 := fun _ => .nan, sqrt := fun _ => .nan }

/-- The tokens the classifier of the specification recognizes. -/
def recognizedTokens : List String :=
  ["0", "1", "2", "3", "4", "5", "6", "7", "8", "9", ".", "+", "-", "*", "/", "=", "AC",
   "±", "%", "sin", "cos", "tan", "ln", "log", "sqrt", "x²", "π", "e"]

/-- The tokens that type the natural number `n` digit by digit. -/
def digitTokens (n : Nat) : List String :=
  (digitsOf n).map String.singleton

/-- The exact integer result of one of the operators `+`, `-`, `*`. -/
def intOp (op : String) (x y : Int) : Int :=
  if op = "+" then x + y
  else if op = "-" then x - y
  else x * y

/-- One event handled by the calculator: a token handed to `processInput` or
the Backspace key, which `handleKeyPress` hands to `backspace`. -/
inductive Action where
  | submit (token : String)
  | backspace
  deriving DecidableEq

/-- The effect of one event on the state. -/
def step (M : MathFns) : Action → State → State
  | .submit token, s => processInput M token s
  | .backspace, s => backspace s

/-- The effect of a sequence of events. -/
def runActions (M : MathFns) (actions : List Action) (s : State) : State :=
  actions.foldl (fun st a => step M a st) s

/-- The events that only edit the number being typed: a single digit, `.`, `±`,
`AC` and Backspace. -/
def isEditing : Action → Bool
  | .submit token =>
    decide (token ∈ ["0", "1", "2", "3", "4", "5", "6", "7", "8", "9", ".", "±", "AC"])
  | .backspace => true

/-- The text after an optional leading `-`. -/
def fragmentBody : List Char → List Char
  | '-' :: rest => rest
  | cs => cs

/-- A decimal literal fragment: an optional leading `-`, then only digits and at
most one `.`. -/
def isDecimalFragment (s : String) : Bool :=
  (fragmentBody s.data).all (fun c => c.isDigit || c == '.') &&
    decide ((fragmentBody s.data).count '.' ≤ 1)

/-! ## Dispatch of `processInput` -/

theorem processInput_equals (M : MathFns) (s : State) :
    processInput M "=" s = updateDisplay (calculate (clearError s)) := by
  simp [processInput]

theorem processInput_operator (M : MathFns) (op : String) (s : State)
    (h : op ∈ ["+", "-", "*", "/"]) :
    processInput M op s = updateDisplay (inputOperator op (clearError s)) := by
  simp only [List.mem_cons, List.mem_singleton, List.not_mem_nil, or_false] at h
  rcases h with h | h | h | h <;> subst h <;> simp [processInput]

theorem processInput_decimal (M : MathFns) (s : State) :
    processInput M "." s = updateDisplay (inputDecimal (clearError s)) := by
  simp [processInput]

theorem processInput_digits (M : MathFns) (v : String) (s : State)
    (h : v.data.any Char.isDigit = true) :
    processInput M v s = updateDisplay (inputNumber v (clearError s)) := by
  simp only [processInput, h, if_true]

theorem performCalculation_error (a b : JSNum) (op : String) (s : State) :
    (performCalculation a b op s).2.error =
      if op = "/" ∧ b.isZero = true then "Cannot divide by zero" else s.error := by
  unfold performCalculation
  by_cases h1 : op = "+"
  · subst h1; simp
  by_cases h2 : op = "-"
  · subst h2; simp
  by_cases h3 : op = "*"
  · subst h3; simp
  by_cases h4 : op = "/"
  · subst h4
    by_cases hz : b.isZero = true <;> simp [hz, showError]
  · simp [h1, h2, h3, h4]

theorem calculate_error (s : State) :
    (calculate s).error =
      if s.previousInput ≠ none ∧ s.operator = "/" ∧ (parseFloat s.currentInput).isZero = true
      then "Cannot divide by zero" else s.error := by
  unfold calculate
  cases hp : s.previousInput with
  | none => simp
  | some p =>
    by_cases ho : s.operator = ""
    · simp [ho]
    · simp only [ne_eq, ho, not_false_eq_true, if_true, updateHistory,
        performCalculation_error]
      simp

theorem inputOperator_error (op : String) (s : State) :
    (inputOperator op s).error =
      if s.previousInput ≠ none ∧ s.operator = "/" ∧ (parseFloat s.currentInput).isZero = true
      then "Cannot divide by zero" else s.error := by
  unfold inputOperator
  cases hp : s.previousInput with
  | none => simp [updateHistory]
  | some p =>
    by_cases ho : s.operator = ""
    · simp [ho, updateHistory]
    · simp only [ne_eq, ho, not_false_eq_true, if_true, updateHistory,
        performCalculation_error]
      simp

theorem inputNumber_error (v : String) (s : State) : (inputNumber v s).error = s.error := by
  unfold inputNumber; split <;> rfl

theorem inputDecimal_error (s : State) : (inputDecimal s).error = s.error := by
  unfold inputDecimal; split
  · rfl
  · split <;> rfl

theorem toggleSign_error (s : State) : (toggleSign s).error = s.error := by
  unfold toggleSign; split <;> rfl

theorem handleScientificFunction_error (M : MathFns) (f : String) (s : State) :
    (handleScientificFunction M f s).error = s.error := by
  unfold handleScientificFunction
  repeat' split
  all_goals rfl

/-- Claim C10: after `processInput token`, the error text is non-empty exactly
when the token is `=` or a binary operator, an operand is pending with the
operator `/`, and `currentInput` parses to zero; in every other case it is empty,
whatever it was before. -/
theorem error_iff_division_by_zero (M : MathFns) (token : String) (s : State) :
    (processInput M token s).error ≠ "" ↔
      ((token = "=" ∨ token ∈ ["+", "-", "*", "/"]) ∧ s.previousInput ≠ none ∧
        s.operator = "/" ∧ (parseFloat s.currentInput).isZero = true) := by
  by_cases hop : token ∈ ["+", "-", "*", "/"]
  · rw [processInput_operator M token s hop]
    simp only [updateDisplay, inputOperator_error, clearError, hop, or_true, true_and]
    split <;> simp_all
  by_cases heq : token = "="
  · subst heq
    rw [processInput_equals]
    simp only [updateDisplay, calculate_error, clearError, true_or, true_and]
    split <;> simp_all
  · have hne : (processInput M token s).error = "" := by
      unfold processInput
      simp only [hop, heq, if_false, updateDisplay]
      repeat' split
      all_goals simp [inputNumber_error, inputDecimal_error, toggleSign_error,
        handleScientificFunction_error, clearError, clear, percentage]
    simp [hne, hop, heq]

theorem str_length_data (s : String) : s.length = s.data.length := rfl

/-! ## Backspace and clear -/

/-- Claim C7: backspace yields a non-empty `currentInput`: the input without its
last character when it has more than one character, otherwise exactly `"0"`; no
other engine field changes. -/
theorem backspace_spec (s : State) :
    (backspace s).currentInput ≠ "" ∧
    (backspace s).currentInput =
      (if s.currentInput.length > 1 then String.mk s.currentInput.data.dropLast else "0") ∧
    (backspace s).previousInput = s.previousInput ∧
    (backspace s).operator = s.operator ∧
    (backspace s).waitingForOperand = s.waitingForOperand ∧
    (backspace s).isScientific = s.isScientific ∧
    (backspace s).historyStack = s.historyStack ∧
    (backspace s).history = s.history ∧
    (backspace s).error = s.error := by
  refine ⟨?_, ?_, ?_⟩
  · unfold backspace updateDisplay
    by_cases h : s.currentInput.length > 1
    · simp only [h, if_true]
      intro hc
      have h2 : s.currentInput.data.dropLast = [] := congrArg String.data hc
      have h3 := congrArg List.length h2
      rw [List.length_dropLast, List.length_nil] at h3
      rw [str_length_data] at h
      omega
    · simp only [h, if_false]
      decide
  · unfold backspace updateDisplay
    split <;> rfl
  · unfold backspace updateDisplay
    split <;> simp

/-- Claim C8: submitting `AC` yields `currentInput = "0"`, no pending operand, no
operator, `waitingForOperand = false`, empty history text and empty error text,
and leaves the mode flag unchanged. -/
theorem clear_spec (M : MathFns) (s : State) :
    (processInput M "AC" s).currentInput = "0" ∧
    (processInput M "AC" s).previousInput = none ∧
    (processInput M "AC" s).operator = "" ∧
    (processInput M "AC" s).waitingForOperand = false ∧
    (processInput M "AC" s).history = "" ∧
    (processInput M "AC" s).error = "" ∧
    (processInput M "AC" s).isScientific = s.isScientific := by
  have h : processInput M "AC" s = updateDisplay (clear (clearError s)) := by
    simp [processInput]
  rw [h]
  simp [updateDisplay, clear, clearError]

theorem str_append_data (a b : String) : (a ++ b).data = a.data ++ b.data := rfl

/-! ## Decimal point -/

/-- Claim C5: submitting `.` twice gives the same state as submitting it once,
and the resulting `currentInput` contains exactly one `.` whenever the input
before contained at most one. -/
theorem decimal_point_idempotent (M : MathFns) (s : State) :
    processInput M "." (processInput M "." s) = processInput M "." s ∧
    (s.currentInput.data.count '.' ≤ 1 →
      (processInput M "." s).currentInput.data.count '.' = 1) := by
  simp only [processInput_decimal]
  constructor
  · unfold inputDecimal updateDisplay clearError
    by_cases hw : s.waitingForOperand = true
    · simp [hw]
    · by_cases hd : '.' ∈ s.currentInput.data
      · simp [hw, hd]
      · simp [hw, hd, str_append_data]
  · intro hc
    unfold inputDecimal updateDisplay clearError
    by_cases hw : s.waitingForOperand = true
    · simp [hw]
    · by_cases hd : '.' ∈ s.currentInput.data
      · simp only [hw, hd, if_false, not_true_eq_false]
        have := List.count_pos_iff.mpr hd
        simp only [Bool.false_eq_true, if_false]
        omega
      · simp only [hw, hd, if_false, not_false_eq_true, if_true, Bool.false_eq_true]
        rw [str_append_data, List.count_append, List.count_eq_zero.mpr hd]
        decide

/-- Claim C5 at the initial state. -/
theorem decimal_point_idempotent_witness :
    processInput nanMath "." (processInput nanMath "." initial) = processInput nanMath "." initial ∧
    (initial.currentInput.data.count '.' ≤ 1 →
      (processInput nanMath "." initial).currentInput.data.count '.' = 1) :=
  decimal_point_idempotent nanMath initial

/-! ## Unrecognized tokens -/

/-- Claim C9 fails for the symbol `12`: it is not a recognized token, yet
`processInput` takes it for a number because it contains a digit, and
`currentInput` changes from `"0"` to `"12"`. -/
theorem unrecognized_token_counterexample :
    "12" ∉ recognizedTokens ∧
    (processInput nanMath "12" initial).currentInput = "12" ∧
    (processInput nanMath "12" initial).currentInput ≠ initial.currentInput := by
  decide

/-- Claim C9, amended: a symbol that contains no decimal digit and is not a
recognized token leaves `currentInput`, `previousInput`, `operator`,
`waitingForOperand`, the history text, the history log and the mode unchanged
and leaves the error text empty. -/
theorem unrecognized_token_ignored (M : MathFns) (value : String) (s : State)
    (hd : value.data.any Char.isDigit = false) (hn : value ∉ recognizedTokens) :
    (processInput M value s).currentInput = s.currentInput ∧
    (processInput M value s).previousInput = s.previousInput ∧
    (processInput M value s).operator = s.operator ∧
    (processInput M value s).waitingForOperand = s.waitingForOperand ∧
    (processInput M value s).history = s.history ∧
    (processInput M value s).historyStack = s.historyStack ∧
    (processInput M value s).isScientific = s.isScientific ∧
    (processInput M value s).error = "" := by
  simp only [recognizedTokens, List.mem_cons, List.mem_singleton, List.not_mem_nil, or_false,
    not_or] at hn
  obtain ⟨-, -, -, -, -, -, -, -, -, -, h1, h2, h3, h4, h5, h6, h7, h8, h9, h10, h11, h12, h13,
    h14, h15, h16, h17, h18⟩ := hn
  have h : processInput M value s = updateDisplay (clearError s) := by
    simp [processInput, hd, h1, h2, h3, h4, h5, h6, h7, h8, h9, handleScientificFunction,
      h10, h11, h12, h13, h14, h15, h16, h17, h18]
  rw [h]
  simp [updateDisplay, clearError]

/-- Claim C9, amended, for the symbol `abs` at the initial state. -/
theorem unrecognized_token_ignored_witness :
    (processInput nanMath "abs" initial).currentInput = initial.currentInput ∧
    (processInput nanMath "abs" initial).previousInput = initial.previousInput ∧
    (processInput nanMath "abs" initial).operator = initial.operator ∧
    (processInput nanMath "abs" initial).waitingForOperand = initial.waitingForOperand ∧
    (processInput nanMath "abs" initial).history = initial.history ∧
    (processInput nanMath "abs" initial).historyStack = initial.historyStack ∧
    (processInput nanMath "abs" initial).isScientific = initial.isScientific ∧
    (processInput nanMath "abs" initial).error = "" :=
  unrecognized_token_ignored nanMath "abs" initial (by decide) (by decide)

/-! ## Sign toggle -/

/-- Claim C6 fails for the input `"-0"`, reached by `.`, `±`, backspace: the
first toggle strips the sign, the second finds `"0"` and does nothing.  It fails
as well for an input that starts with two signs, such as `"--5"`, where both
toggles strip a sign. -/
theorem toggleSign_twice_counterexample :
    (backspace (run nanMath [".", "±"] initial)).currentInput = "-0" ∧
    (backspace (run nanMath [".", "±"] initial)).currentInput ≠ "0" ∧
    (toggleSign (toggleSign (backspace (run nanMath [".", "±"] initial)))).currentInput = "0" ∧
    (toggleSign (toggleSign (backspace (run nanMath [".", "±"] initial)))).currentInput ≠
      (backspace (run nanMath [".", "±"] initial)).currentInput ∧
    (toggleSign (toggleSign { initial with currentInput := "--5" })).currentInput = "5" := by
  decide

theorem str_mk_eq_iff (l : List Char) (t : String) : String.mk l = t ↔ l = t.data := by
  constructor
  · intro h; rw [← h]
  · intro h; rw [h]

/-- Claim C6, amended: when `currentInput` is neither `"0"` nor `"-0"` and does
not start with `--`, applying `toggleSign` twice returns the state unchanged. -/
theorem toggleSign_involution (s : State) (h0 : s.currentInput ≠ "0")
    (h1 : s.currentInput ≠ "-0") (h2 : ¬ "--".data.isPrefixOf s.currentInput.data = true) :
    toggleSign (toggleSign s) = s := by
  obtain ⟨cur, p, o, w, sc, hs, d, hi, er⟩ := s
  obtain ⟨l⟩ := cur
  simp only [ne_eq, str_mk_eq_iff] at h0 h1 h2
  have e0 : ("0" : String).data = ['0'] := rfl
  have e1 : ("-0" : String).data = ['-', '0'] := rfl
  have e2 : ("--" : String).data = ['-', '-'] := rfl
  have e3 : ∀ t : String, "-" ++ t = String.mk ('-' :: t.data) := fun _ => rfl
  cases l with
  | nil =>
    simp [toggleSign, str_mk_eq_iff, e0, e3]
  | cons c rest =>
    by_cases hc : c = '-'
    · subst hc
      have hr0 : rest ≠ ['0'] := by
        intro h; apply h1; rw [h]
      have hr1 : rest.head? ≠ some '-' := by
        intro h
        cases rest with
        | nil => simp at h
        | cons d r =>
          simp at h; subst h
          apply h2; simp [List.isPrefixOf]
      simp [toggleSign, str_mk_eq_iff, e0, e3, hr0, hr1]
    · have hh : (c :: rest).head? ≠ some '-' := by simp [hc]
      simp [toggleSign, str_mk_eq_iff, e0, e3, hc, h0]

/-- Claim C6, amended, for the input `"5"`. -/
theorem toggleSign_involution_witness :
    toggleSign (toggleSign (run nanMath ["5"] initial)) = run nanMath ["5"] initial :=
  toggleSign_involution (run nanMath ["5"] initial) (by decide) (by decide) (by decide)

/-! ## Division by zero -/

/-- Claim C1 fails after `5 / 0`: `=` clears `previousInput` and replaces
`currentInput` `"0"` by `"5"`, and a further operator replaces `currentInput`
by `"5"` as well. -/
theorem division_by_zero_counterexample :
    (run nanMath ["5", "/", "0"] initial).previousInput = some (ofInt 5) ∧
    (run nanMath ["5", "/", "0"] initial).operator = "/" ∧
    (run nanMath ["5", "/", "0"] initial).currentInput = "0" ∧
    (parseFloat (run nanMath ["5", "/", "0"] initial).currentInput).isZero = true ∧
    (processInput nanMath "=" (run nanMath ["5", "/", "0"] initial)).previousInput = none ∧
    (processInput nanMath "=" (run nanMath ["5", "/", "0"] initial)).currentInput = "5" ∧
    (processInput nanMath "+" (run nanMath ["5", "/", "0"] initial)).currentInput = "5" := by
  decide!

theorem performCalculation_div_zero (a b : JSNum) (s : State) (hz : b.isZero = true) :
    performCalculation a b "/" s = (a, showError "Cannot divide by zero" s) := by
  simp [performCalculation, hz]

/-- Claim C1, amended: with a pending operand `a`, the operator `/` and a
`currentInput` that parses to zero, both `=` and a binary operator leave the
error text `Cannot divide by zero`; `=` clears `previousInput` and sets
`currentInput` to the reformatted `a`; a binary operator sets `previousInput`
to `a || 0` and `currentInput` to its reformatted text. -/
theorem division_by_zero_resolution (M : MathFns) (s : State) (a : JSNum) (op : String)
    (hp : s.previousInput = some a) (ho : s.operator = "/")
    (hz : (parseFloat s.currentInput).isZero = true) (hop : op ∈ ["+", "-", "*", "/"]) :
    (processInput M "=" s).error = "Cannot divide by zero" ∧
    (processInput M "=" s).previousInput = none ∧
    (processInput M "=" s).currentInput = reformat a ∧
    (processInput M op s).error = "Cannot divide by zero" ∧
    (processInput M op s).previousInput = some (if a.truthy then a else ofInt 0) ∧
    (processInput M op s).currentInput = reformat (if a.truthy then a else ofInt 0) := by
  rw [processInput_equals, processInput_operator M op s hop]
  have hz' : (parseFloat (clearError s).currentInput).isZero = true := hz
  have hp' : (clearError s).previousInput = some a := hp
  have ho' : (clearError s).operator = "/" := ho
  refine ⟨?_, ?_, ?_, ?_, ?_, ?_⟩
  · simp [updateDisplay, calculate_error, hp, ho, hz, clearError]
  · simp [updateDisplay, calculate, hp', ho', performCalculation_div_zero _ _ _ hz', updateHistory]
  · simp [updateDisplay, calculate, hp', ho', performCalculation_div_zero _ _ _ hz', updateHistory]
  · simp [updateDisplay, inputOperator_error, hp, ho, hz, clearError]
  · simp [updateDisplay, inputOperator, hp', ho', performCalculation_div_zero _ _ _ hz',
      updateHistory]
  · simp [updateDisplay, inputOperator, hp', ho', performCalculation_div_zero _ _ _ hz',
      updateHistory]

/-- Claim C1, amended, after `5 / 0`. -/
theorem division_by_zero_resolution_witness :
    (processInput nanMath "=" (run nanMath ["5", "/", "0"] initial)).error =
      "Cannot divide by zero" ∧
    (processInput nanMath "=" (run nanMath ["5", "/", "0"] initial)).previousInput = none ∧
    (processInput nanMath "=" (run nanMath ["5", "/", "0"] initial)).currentInput =
      reformat (ofInt 5) ∧
    (processInput nanMath "+" (run nanMath ["5", "/", "0"] initial)).error =
      "Cannot divide by zero" ∧
    (processInput nanMath "+" (run nanMath ["5", "/", "0"] initial)).previousInput =
      some (if (ofInt 5).truthy then ofInt 5 else ofInt 0) ∧
    (processInput nanMath "+" (run nanMath ["5", "/", "0"] initial)).currentInput =
      reformat (if (ofInt 5).truthy then ofInt 5 else ofInt 0) :=
  division_by_zero_resolution nanMath (run nanMath ["5", "/", "0"] initial) (ofInt 5) "+"
    (by decide!) (by decide!) (by decide!) (by decide)

/-! ## Typing digits -/

theorem processInput_digit_char (M : MathFns) (c : Char) (s : State) (hc : c.isDigit = true) :
    processInput M (String.singleton c) s =
      updateDisplay (inputNumber (String.singleton c) (clearError s)) := by
  apply processInput_digits
  show [c].any Char.isDigit = true
  simp [hc]

theorem digit_step (M : MathFns) (c : Char) (s : State) (hc : c.isDigit = true)
    (hw : s.waitingForOperand = false) :
    (processInput M (String.singleton c) s).waitingForOperand = false ∧
    (processInput M (String.singleton c) s).currentInput =
      (if s.currentInput = "0" then String.singleton c
       else s.currentInput ++ String.singleton c) := by
  rw [processInput_digit_char M c s hc]
  simp [updateDisplay, inputNumber, clearError, hw]

theorem run_cons (M : MathFns) (t : String) (ts : List String) (s : State) :
    run M (t :: ts) s = run M ts (processInput M t s) := rfl

theorem run_nil (M : MathFns) (s : State) : run M [] s = s := rfl

theorem run_append (M : MathFns) (ts us : List String) (s : State) :
    run M (ts ++ us) s = run M us (run M ts s) := by
  simp [run, List.foldl_append]

/-- Typing digits after a non-empty input other than `"0"` appends them. -/
theorem run_digits_append (M : MathFns) (ds : List Char) (hd : ∀ c ∈ ds, c.isDigit = true) :
    ∀ (s : State) (cs : List Char), s.waitingForOperand = false →
      s.currentInput = String.mk cs → cs ≠ [] → cs ≠ ['0'] →
      (run M (ds.map String.singleton) s).waitingForOperand = false ∧
      (run M (ds.map String.singleton) s).currentInput = String.mk (cs ++ ds) := by
  induction ds with
  | nil => intro s cs hw hc _ _; simp [run_nil, hw, hc]
  | cons d ds ih =>
    intro s cs hw hc hne h0
    rw [List.map_cons, run_cons]
    have hdd : d.isDigit = true := hd d (List.mem_cons_self _ _)
    obtain ⟨hw1, hc1⟩ := digit_step M d s hdd hw
    have hs0 : s.currentInput ≠ "0" := by
      rw [hc]; intro h; exact h0 (congrArg String.data h)
    rw [if_neg hs0, hc] at hc1
    have hc2 : (processInput M (String.singleton d) s).currentInput = String.mk (cs ++ [d]) :=
      hc1
    have := ih (fun c h => hd c (List.mem_cons_of_mem _ h)) _ (cs ++ [d]) hw1 hc2
      (by simp) (by
        intro h
        have := congrArg List.length h
        simp at this
        exact hne this)
    simpa using this

/-- Typing digits into the input `"0"` drops the leading zeros. -/
theorem run_digits_zero (M : MathFns) (ds : List Char) (hd : ∀ c ∈ ds, c.isDigit = true) :
    ∀ (s : State), s.waitingForOperand = false → s.currentInput = "0" →
      (run M (ds.map String.singleton) s).waitingForOperand = false ∧
      (run M (ds.map String.singleton) s).currentInput =
        (if ds.dropWhile (fun c => c == '0') = [] then "0"
         else String.mk (ds.dropWhile (fun c => c == '0'))) := by
  induction ds with
  | nil => intro s hw hc; simp [run_nil, hw, hc]
  | cons d ds ih =>
    intro s hw hc
    rw [List.map_cons, run_cons]
    have hdd : d.isDigit = true := hd d (List.mem_cons_self _ _)
    obtain ⟨hw1, hc1⟩ := digit_step M d s hdd hw
    rw [if_pos hc] at hc1
    by_cases hz : d = '0'
    · subst hz
      have := ih (fun c h => hd c (List.mem_cons_of_mem _ h)) _ hw1 hc1
      simpa [List.dropWhile] using this
    · have hz' : (d == '0') = false := by simpa using hz
      have := run_digits_append M ds (fun c h => hd c (List.mem_cons_of_mem _ h)) _ [d] hw1 hc1
        (by simp) (by simpa using hz)
      simpa [List.dropWhile, hz'] using this

/-- Claim C4: after any sequence of single-digit tokens typed from the cleared
state (after `AC`, or the initial state), `currentInput` is the concatenation
of the digits without its leading zeros, or `"0"` when nothing else is left. -/
theorem digits_concatenate (M : MathFns) (s0 : State) (ds : List Char)
    (hd : ∀ c ∈ ds, c.isDigit = true) :
    (run M (ds.map String.singleton) (processInput M "AC" s0)).currentInput =
      (if ds.dropWhile (fun c => c == '0') = [] then "0"
       else String.mk (ds.dropWhile (fun c => c == '0'))) ∧
    (run M (ds.map String.singleton) initial).currentInput =
      (if ds.dropWhile (fun c => c == '0') = [] then "0"
       else String.mk (ds.dropWhile (fun c => c == '0'))) := by
  have hAC : processInput M "AC" s0 = updateDisplay (clear (clearError s0)) := by
    simp [processInput]
  exact ⟨(run_digits_zero M ds hd _ (by rw [hAC]; rfl) (by rw [hAC]; rfl)).2,
    (run_digits_zero M ds hd initial rfl rfl).2⟩

/-- Claim C4 for the digits `0 0 4 0 2`. -/
theorem digits_concatenate_witness :
    (run nanMath (['0', '0', '4', '0', '2'].map String.singleton)
        (processInput nanMath "AC" initial)).currentInput =
      (if ['0', '0', '4', '0', '2'].dropWhile (fun c => c == '0') = [] then "0"
       else String.mk (['0', '0', '4', '0', '2'].dropWhile (fun c => c == '0'))) ∧
    (run nanMath (['0', '0', '4', '0', '2'].map String.singleton) initial).currentInput =
      (if ['0', '0', '4', '0', '2'].dropWhile (fun c => c == '0') = [] then "0"
       else String.mk (['0', '0', '4', '0', '2'].dropWhile (fun c => c == '0'))) :=
  digits_concatenate nanMath initial ['0', '0', '4', '0', '2'] (by decide)

/-! ## Decimal digits -/

theorem toDigitsCore_acc (fuel : Nat) : ∀ (n : Nat) (ds : List Char),
    Nat.toDigitsCore 10 fuel n ds = Nat.toDigitsCore 10 fuel n [] ++ ds := by
  induction fuel with
  | zero => intro n ds; simp [Nat.toDigitsCore]
  | succ f ih =>
    intro n ds
    simp only [Nat.toDigitsCore]
    split
    · simp
    · rw [ih (n / 10) (_ :: ds), ih (n / 10) [_]]
      simp

theorem toDigitsCore_fuel : ∀ (n fuel : Nat), n < fuel →
    Nat.toDigitsCore 10 fuel n [] = Nat.toDigitsCore 10 (n + 1) n [] := by
  intro n
  induction n using Nat.strong_induction_on with
  | _ n ih =>
    intro fuel hf
    obtain ⟨f, rfl⟩ : ∃ f, fuel = f + 1 := ⟨fuel - 1, by omega⟩
    simp only [Nat.toDigitsCore]
    by_cases h0 : n / 10 = 0
    · simp [h0]
    · simp only [h0, if_false]
      have hlt : n / 10 < n := by omega
      rw [toDigitsCore_acc f, toDigitsCore_acc n, ih (n / 10) hlt f (by omega),
        ih (n / 10) hlt n hlt]

/-- The digits of `n` are the digits of `n / 10` followed by the last digit. -/
theorem digitsOf_step (n : Nat) (h : 10 ≤ n) :
    digitsOf n = digitsOf (n / 10) ++ [Nat.digitChar (n % 10)] := by
  have h0 : n / 10 ≠ 0 := by omega
  have h1 : Nat.toDigitsCore 10 (n + 1) n [] =
      Nat.toDigitsCore 10 n (n / 10) [Nat.digitChar (n % 10)] := by
    simp only [Nat.toDigitsCore, h0, if_false]
  show Nat.toDigitsCore 10 (n + 1) n [] = Nat.toDigitsCore 10 (n / 10 + 1) (n / 10) [] ++ _
  rw [h1, toDigitsCore_acc n, toDigitsCore_fuel (n / 10) n (by omega)]

theorem digitsOf_small (n : Nat) (h : n < 10) : digitsOf n = [Nat.digitChar n] := by
  have h0 : n / 10 = 0 := by omega
  show Nat.toDigitsCore 10 (n + 1) n [] = _
  simp only [Nat.toDigitsCore, h0, if_true, Nat.mod_eq_of_lt h]

theorem digitChar_isDigit (d : Nat) (h : d < 10) : (Nat.digitChar d).isDigit = true := by
  interval_cases d <;> decide

theorem digitChar_val (d : Nat) (h : d < 10) : (Nat.digitChar d).toNat - 48 = d := by
  interval_cases d <;> decide

theorem digitChar_eq_zero (d : Nat) (h : d < 10) : Nat.digitChar d = '0' ↔ d = 0 := by
  interval_cases d <;> decide

theorem digitsOf_isDigit (n : Nat) : ∀ c ∈ digitsOf n, c.isDigit = true := by
  induction n using Nat.strong_induction_on with
  | _ n ih =>
    by_cases h : n < 10
    · rw [digitsOf_small n h]
      intro c hc
      simp only [List.mem_singleton] at hc
      subst hc
      exact digitChar_isDigit n h
    · rw [digitsOf_step n (by omega)]
      intro c hc
      rw [List.mem_append] at hc
      rcases hc with hc | hc
      · exact ih (n / 10) (by omega) c hc
      · simp only [List.mem_singleton] at hc
        subst hc
        exact digitChar_isDigit _ (Nat.mod_lt _ (by decide))

theorem digitsVal_append (ds : List Char) (c : Char) :
    digitsVal (ds ++ [c]) = 10 * digitsVal ds + (c.toNat - 48) := by
  simp [digitsVal, List.foldl_append]

theorem digitsVal_digitsOf (n : Nat) : digitsVal (digitsOf n) = n := by
  induction n using Nat.strong_induction_on with
  | _ n ih =>
    by_cases h : n < 10
    · rw [digitsOf_small n h]
      simp only [digitsVal, List.foldl]
      have := digitChar_val n h
      omega
    · rw [digitsOf_step n (by omega), digitsVal_append, ih (n / 10) (by omega),
        digitChar_val _ (Nat.mod_lt _ (by decide))]
      omega

theorem digitsOf_ne_nil (n : Nat) : digitsOf n ≠ [] := by
  by_cases h : n < 10
  · rw [digitsOf_small n h]; simp
  · rw [digitsOf_step n (by omega)]; simp

theorem digitsOf_head (n : Nat) (hn : 0 < n) : (digitsOf n).head? ≠ some '0' := by
  induction n using Nat.strong_induction_on with
  | _ n ih =>
    by_cases h : n < 10
    · rw [digitsOf_small n h]
      simp only [List.head?, ne_eq, Option.some.injEq]
      rw [digitChar_eq_zero n h]
      omega
    · rw [digitsOf_step n (by omega)]
      have hne := digitsOf_ne_nil (n / 10)
      have := ih (n / 10) (by omega) (by omega)
      cases hd : digitsOf (n / 10) with
      | nil => exact absurd hd hne
      | cons c cs => rw [hd] at this; simpa using this

theorem digitsOf_mul_ten (n : Nat) (hn : 0 < n) : digitsOf (n * 10) = digitsOf n ++ ['0'] := by
  rw [digitsOf_step (n * 10) (by omega)]
  have h1 : n * 10 / 10 = n := by omega
  have h2 : n * 10 % 10 = 0 := by omega
  rw [h1, h2]
  rfl

theorem digitsOf_mul_pow (n t : Nat) (hn : 0 < n) :
    digitsOf (n * 10 ^ t) = digitsOf n ++ List.replicate t '0' := by
  induction t with
  | zero => simp
  | succ t ih =>
    rw [pow_succ, ← Nat.mul_assoc, digitsOf_mul_ten _ (by positivity), ih]
    simp [List.replicate_succ']

theorem digitsOf_length_le (n e : Nat) (he : 0 < e) (h : n < 10 ^ e) :
    (digitsOf n).length ≤ e := by
  induction e generalizing n with
  | zero => omega
  | succ e ih =>
    by_cases h10 : n < 10
    · rw [digitsOf_small n h10]; simp
    · rw [digitsOf_step n (by omega), List.length_append]
      have he0 : 0 < e := by
        rcases Nat.eq_zero_or_pos e with h0 | h0
        · subst h0; simp at h; omega
        · exact h0
      have : n / 10 < 10 ^ e := by
        rw [pow_succ] at h
        exact Nat.div_lt_of_lt_mul (by omega)
      have := ih (n / 10) he0 this
      simp
      omega

theorem lt_pow_digitsOf_length (n : Nat) : n < 10 ^ (digitsOf n).length := by
  induction n using Nat.strong_induction_on with
  | _ n ih =>
    by_cases h : n < 10
    · rw [digitsOf_small n h]; simpa using h
    · rw [digitsOf_step n (by omega), List.length_append, List.length_singleton, pow_succ]
      have := ih (n / 10) (by omega)
      omega

/-! ## Rounding of integers -/

theorem one_eq : one = 2 ^ 1074 := by unfold one; rfl

theorem one_pos : 0 < one := by rw [one_eq]; positivity

theorem log2Fuel_eq : ∀ (fuel n : Nat), n ≤ fuel → log2Fuel fuel n = Nat.log 2 n := by
  intro fuel
  induction fuel with
  | zero => intro n h; have : n = 0 := by omega
            subst this; simp [log2Fuel]
  | succ f ih =>
    intro n h
    simp only [log2Fuel]
    by_cases h2 : n < 2
    · simp [h2, Nat.log_of_lt h2]
    · simp only [h2, if_false]
      have hn : Nat.log 2 n = Nat.log 2 (n / 2) + 1 :=
        Nat.log_of_one_lt_of_le (by decide) (by omega)
      rw [ih (n / 2) (by omega), hn]

theorem log2_eq (n : Nat) : log2 n = Nat.log 2 n := log2Fuel_eq n n (le_refl n)

theorem log_mul_one (n : Nat) (hn : 0 < n) : Nat.log 2 (n * one) = Nat.log 2 n + 1074 := by
  apply Nat.log_eq_of_pow_le_of_lt_pow
  · rw [pow_add, one_eq]
    exact Nat.mul_le_mul_right _ (Nat.pow_log_le_self 2 (by omega))
  · rw [show Nat.log 2 n + 1074 + 1 = (Nat.log 2 n + 1) + 1074 by omega, pow_add, one_eq]
    exact Nat.mul_lt_mul_of_pos_right (Nat.lt_pow_succ_log_self (by decide) n) (by positivity)



theorem roundHalfEven_mul (k q : Nat) (hq : 0 < q) : roundHalfEven (k * q) q = k := by
  unfold roundHalfEven
  rw [Nat.mul_mod_left, Nat.mul_div_cancel _ hq]
  simp [hq]

theorem pow53_le_one : 2 ^ 53 ≤ one := by
  rw [one_eq]
  apply Nat.pow_le_pow_right
  · decide
  · decide

/-- An integer of magnitude at most `2^53`, given as a fraction with any
denominator, rounds to itself. -/
theorem roundMag_exact (n c : Nat) (hc : 0 < c) (hn : n ≤ 2 ^ 53) :
    roundMag (n * one * c) c = some (n * one) := by
  unfold roundMag
  rw [Nat.mul_div_cancel _ hc]
  rcases Nat.eq_zero_or_pos n with h0 | hpos
  · subst h0
    have : (0 : Nat) * one < 2 ^ 53 := by simp
    rw [if_pos this, roundHalfEven_mul _ _ hc]
  · have hbig : ¬ (n * one < 2 ^ 53) := by
      have := pow53_le_one
      have : one ≤ n * one := Nat.le_mul_of_pos_left _ hpos
      omega
    rw [if_neg hbig]
    simp only [log2_eq, log_mul_one n hpos]
    have hL : Nat.log 2 n < 54 :=
      Nat.log_lt_of_lt_pow (by omega) (lt_of_le_of_lt hn (by norm_num))
    have hdvd : 2 ^ (Nat.log 2 n + 1074 - 52) ∣ n * one := by
      by_cases h52 : Nat.log 2 n ≤ 52
      · apply dvd_mul_of_dvd_right
        rw [one_eq]
        exact pow_dvd_pow 2 (by omega)
      · have h53 : Nat.log 2 n = 53 := by omega
        have hle : 2 ^ 53 ≤ n := by
          have := Nat.pow_log_le_self 2 (show n ≠ 0 by omega)
          rwa [h53] at this
        have hn53 : n = 2 ^ 53 := le_antisymm hn hle
        rw [h53, hn53, one_eq, ← pow_add]
        exact pow_dvd_pow 2 (by omega)
    obtain ⟨k, hk⟩ := hdvd
    have hrw : n * one * c = k * (c * 2 ^ (Nat.log 2 n + 1074 - 52)) := by
      rw [hk]; ring
    rw [hrw, roundHalfEven_mul _ _ (by positivity)]
    have hres : k * 2 ^ (Nat.log 2 n + 1074 - 52) = n * one := by rw [hk]; ring
    rw [hres]
    have hfin : n * one < 2 ^ 2098 := by
      have h1 : n * one ≤ 2 ^ 53 * one := Nat.mul_le_mul_right _ hn
      have h2 : 2 ^ 53 * one = 2 ^ (53 + 1074) := by rw [one_eq, pow_add]
      have h3 : 2 ^ (53 + 1074) < 2 ^ 2098 := by
        apply Nat.pow_lt_pow_right
        · decide
        · decide
      omega
    rw [if_pos hfin]

theorem roundMag_exact_one (n : Nat) (hn : n ≤ 2 ^ 53) :
    roundMag (n * one) 1 = some (n * one) := by
  have := roundMag_exact n 1 (by decide) hn
  simpa using this

theorem le_roundHalfEven (p q : Nat) : p / q ≤ roundHalfEven p q := by
  unfold roundHalfEven
  split
  · exact le_refl _
  · split
    · omega
    · split <;> omega

/-- An integer of magnitude at least `2^53` rounds to a magnitude of at least
`2^53`. -/
theorem roundMag_ge (w r : Nat) (hw : 2 ^ 53 ≤ w) (h : roundMag (w * one) 1 = some r) :
    2 ^ 53 * one ≤ r := by
  unfold roundMag at h
  rw [Nat.div_one] at h
  have hpos : 0 < w := lt_of_lt_of_le (by positivity) hw
  have hbig : ¬ (w * one < 2 ^ 53) := by
    have := pow53_le_one
    have : one ≤ w * one := Nat.le_mul_of_pos_left _ hpos
    omega
  rw [if_neg hbig] at h
  simp only [log2_eq, log_mul_one w hpos, Nat.one_mul] at h
  have hL : 53 ≤ Nat.log 2 w := by
    have := Nat.log_mono_right (b := 2) hw
    rwa [Nat.log_pow (by decide)] at this
  split at h
  · have h := Option.some.inj h
    rw [← h]
    have h1 := le_roundHalfEven (w * one) (2 ^ (Nat.log 2 w + 1074 - 52))
    have h2 : 2 ^ 52 ≤ w * one / 2 ^ (Nat.log 2 w + 1074 - 52) := by
      rw [Nat.le_div_iff_mul_le (by positivity), ← pow_add]
      have h3 : 52 + (Nat.log 2 w + 1074 - 52) = Nat.log 2 w + 1074 := by omega
      rw [h3, pow_add, one_eq]
      exact Nat.mul_le_mul_right _ (Nat.pow_log_le_self 2 (by omega))
    have hexp : 53 + 1074 ≤ 52 + (Nat.log 2 w + 1074 - 52) := by omega
    have hpow : 2 ^ 53 * one ≤ 2 ^ 52 * 2 ^ (Nat.log 2 w + 1074 - 52) := by
      rw [one_eq, ← pow_add, ← pow_add]
      apply Nat.pow_le_pow_right
      · decide
      · exact hexp
    exact le_trans hpow (Nat.mul_le_mul_right _ (le_trans h2 h1))
  · exact absurd h (by simp)

/-- A larger integer never rounds to an integer below `2^53`. -/
theorem roundMag_ne_of_lt (n v : Nat) (hn : n < 2 ^ 53) (hv : n < v) :
    roundMag (v * one) 1 ≠ some (n * one) := by
  intro h
  by_cases hv53 : v ≤ 2 ^ 53
  · rw [roundMag_exact_one v hv53] at h
    have h := Option.some.inj h
    have := Nat.eq_of_mul_eq_mul_right one_pos h
    omega
  · have := roundMag_ge v _ (by omega) h
    have := Nat.le_of_mul_le_mul_right this one_pos
    omega

theorem decToMag_nonneg (s j : Nat) : decToMag s (j : Int) = roundMag (s * 10 ^ j * one) 1 := by
  unfold decToMag
  have h1 : ((j : Int)).toNat = j := by omega
  have h2 : (-(j : Int)).toNat = 0 := by omega
  rw [h1, h2, pow_zero]

theorem decToMag_neg (s j : Nat) :
    decToMag s (-(j : Int)) = roundMag (s * one) (10 ^ j) := by
  unfold decToMag
  have h1 : (-(j : Int)).toNat = 0 := by omega
  have h2 : (- -(j : Int)).toNat = j := by omega
  rw [h1, h2, pow_zero, Nat.mul_one]

/-! ## Conversions of integer doubles -/

theorem scaled_neg (x j : Nat) : scaled x (-(j : Int)) = (x, one * 10 ^ j) := by
  unfold scaled
  have h1 : (-(j : Int)).toNat = 0 := by omega
  have h2 : (- -(j : Int)).toNat = j := by omega
  rw [h1, h2, pow_zero, Nat.mul_one]

theorem scaled_nonneg (x j : Nat) : scaled x (j : Int) = (x * 10 ^ j, one) := by
  unfold scaled
  have h1 : ((j : Int)).toNat = j := by omega
  have h2 : (-(j : Int)).toNat = 0 := by omega
  rw [h1, h2, pow_zero, Nat.mul_one]

/-- For an integer `n < 2^53` with at most `m` digits the digit search ends with
an exact decimal: `s * 10^(m - k) = n`. -/
theorem shortestFrom_int (n m : Nat) (hn : n < 2 ^ 53) :
    ∀ (fuel k : Nat), k ≤ m → m < k + fuel →
      ∃ s k', shortestFrom (n * one) (m : Int) fuel k = (s, k', (m : Int)) ∧ k' ≤ m ∧
        s * 10 ^ (m - k') = n := by
  intro fuel
  induction fuel with
  | zero => intro k h1 h2; omega
  | succ f ih =>
    intro k hk hf
    have e1 : ((k : Int) - (m : Int)) = -((m - k : Nat) : Int) := by omega
    have e2 : ((m : Int) - (k : Int)) = ((m - k : Nat) : Int) := by omega
    have hDpos : 0 < 10 ^ (m - k) := by positivity
    have hlo : n * one / (one * 10 ^ (m - k)) = n / 10 ^ (m - k) := by
      rw [Nat.mul_comm n one]
      exact Nat.mul_div_mul_left _ _ one_pos
    have hle : n / 10 ^ (m - k) * 10 ^ (m - k) ≤ n := Nat.div_mul_le_self _ _
    simp only [shortestFrom, e1, e2, scaled_neg, decToMag_nonneg, hlo]
    rw [roundMag_exact_one _ (by omega)]
    by_cases hex : n / 10 ^ (m - k) * 10 ^ (m - k) = n
    · have hc : 2 * (n * one) < (2 * (n / 10 ^ (m - k)) + 1) * (one * 10 ^ (m - k)) := by
        have : (2 * (n / 10 ^ (m - k)) + 1) * (one * 10 ^ (m - k)) =
            2 * (n / 10 ^ (m - k) * 10 ^ (m - k) * one) + one * 10 ^ (m - k) := by ring
        rw [this, hex]
        have := Nat.mul_pos one_pos hDpos
        omega
      rw [if_pos ⟨by rw [hex], Or.inr (Or.inl hc)⟩]
      exact ⟨_, k, rfl, hk, hex⟩
    · have hne : ¬ (some (n / 10 ^ (m - k) * 10 ^ (m - k) * one) = some (n * one)) := by
        intro h
        exact hex (Nat.eq_of_mul_eq_mul_right one_pos (Option.some.inj h))
      have hlt : n < (n / 10 ^ (m - k) + 1) * 10 ^ (m - k) := by
        have := Nat.lt_succ_iff.mpr (le_refl (n / 10 ^ (m - k)))
        rw [Nat.add_mul, Nat.one_mul]
        have := Nat.mod_lt n hDpos
        have := Nat.div_add_mod n (10 ^ (m - k))
        rw [Nat.mul_comm] at this
        omega
      have hhi := roundMag_ne_of_lt n _ hn hlt
      rw [if_neg (fun h => hne h.1), if_neg hhi]
      have hkm : k < m := by
        by_contra hcon
        have : m - k = 0 := by omega
        rw [this] at hex
        simp at hex
      exact ih (k + 1) (by omega) (by omega)

theorem pow53_lt_pow10 : 2 ^ 53 < 10 ^ 16 := by norm_num

theorem decExp_int (n : Nat) (hn : 0 < n) : decExp (n * one) = ((digitsOf n).length : Int) := by
  unfold decExp
  have h : one ≤ n * one := Nat.le_mul_of_pos_left _ hn
  rw [if_pos h, Nat.mul_div_cancel _ one_pos]

/-- The text of an integer double of magnitude below `2^53`: its decimal
digits. -/
theorem numToString_int (s : Bool) (n : Nat) (hn0 : 0 < n) (hn : n < 2 ^ 53) :
    numToString (.fin s (n * one)) = String.mk ((if s then ['-'] else []) ++ digitsOf n) := by
  have hmag : n * one ≠ 0 := Nat.pos_iff_ne_zero.mp (Nat.mul_pos hn0 one_pos)
  have hm16 : (digitsOf n).length ≤ 16 :=
    digitsOf_length_le n 16 (by decide) (lt_trans hn pow53_lt_pow10)
  have hm1 : 1 ≤ (digitsOf n).length := by
    have := digitsOf_ne_nil n
    cases h : digitsOf n with
    | nil => exact absurd h this
    | cons c cs => simp
  obtain ⟨s', k', heq, hk', hval⟩ :=
    shortestFrom_int n (digitsOf n).length hn 17 1 hm1 (by omega)
  have hs' : 0 < s' := by
    rcases Nat.eq_zero_or_pos s' with h | h
    · subst h; simp at hval; omega
    · exact h
  unfold numToString
  simp only [hmag, if_false, decExp_int n hn0, heq]
  have hcond : (k' : Int) ≤ ((digitsOf n).length : Int) ∧ ((digitsOf n).length : Int) ≤ 21 := by
    constructor <;> omega
  rw [if_pos hcond]
  have ht : (((digitsOf n).length : Int) - (k' : Int)).toNat = (digitsOf n).length - k' := by
    omega
  rw [ht, ← digitsOf_mul_pow s' _ hs', hval]

theorem roundHalfUp_mul (k q : Nat) (hq : 0 < q) : roundHalfUp (k * q) q = k := by
  unfold roundHalfUp
  rw [Nat.mul_mod_left, Nat.mul_div_cancel _ hq]
  simp [hq]

/-- The text `toFixed(7)` of an integer double: its digits and seven zeros. -/
theorem toFixed_int (s : Bool) (n : Nat) (hn : n < 2 ^ 53) :
    toFixed (.fin s (n * one)) 7 =
      String.mk ((if s = true ∧ n ≠ 0 then ['-'] else []) ++
        (digitsOf n ++ '.' :: List.replicate 7 '0')) := by
  unfold toFixed
  have hsmall : ¬ (10 ^ 21 * one ≤ n * one) := by
    intro h
    have := Nat.le_of_mul_le_mul_right h one_pos
    have : (2 : Nat) ^ 53 < 10 ^ 21 := by norm_num
    omega
  have hr : roundHalfUp (n * one * 10 ^ 7) one = n * 10 ^ 7 := by
    rw [show n * one * 10 ^ 7 = n * 10 ^ 7 * one by ring]
    exact roundHalfUp_mul _ _ one_pos
  have hsign : (s = true ∧ n * one ≠ 0) ↔ (s = true ∧ n ≠ 0) := by
    have := one_pos
    constructor
    · rintro ⟨h1, h2⟩
      exact ⟨h1, fun h => h2 (by rw [h, Nat.zero_mul])⟩
    · rintro ⟨h1, h2⟩
      exact ⟨h1, Nat.pos_iff_ne_zero.mp (Nat.mul_pos (Nat.pos_of_ne_zero h2) one_pos)⟩
  simp only [hsmall, if_false, hr, hsign]
  congr 2
  rcases Nat.eq_zero_or_pos n with h0 | hpos
  · subst h0
    decide
  · rw [digitsOf_mul_pow n 7 hpos]
    have hlen : ¬ ((digitsOf n ++ List.replicate 7 '0').length ≤ 7) := by
      have := digitsOf_ne_nil n
      cases h : digitsOf n with
      | nil => exact absurd h this
      | cons c cs => simp
    simp only [hlen, if_false]
    have h7 : (7 : Nat) ≠ 0 := by decide
    simp only [h7, if_false, List.length_append, List.length_replicate, Nat.add_sub_cancel]
    rw [List.take_left', List.drop_left']
    · simp
    · rfl
    · rfl

theorem takeWhile_append_of_all (p : Char → Bool) (ds rest : List Char)
    (h : ∀ c ∈ ds, p c = true) : (ds ++ rest).takeWhile p = ds ++ rest.takeWhile p := by
  induction ds with
  | nil => rfl
  | cons d ds ih =>
    have hd : p d = true := h d (List.mem_cons_self _ _)
    simp only [List.cons_append, List.takeWhile_cons, hd, if_true]
    rw [ih (fun c hc => h c (List.mem_cons_of_mem _ hc))]

theorem dropWhile_append_of_all (p : Char → Bool) (ds rest : List Char)
    (h : ∀ c ∈ ds, p c = true) : (ds ++ rest).dropWhile p = rest.dropWhile p := by
  induction ds with
  | nil => rfl
  | cons d ds ih =>
    have hd : p d = true := h d (List.mem_cons_self _ _)
    simp only [List.cons_append, List.dropWhile_cons, hd, if_true]
    exact ih (fun c hc => h c (List.mem_cons_of_mem _ hc))

theorem digit_bounds (c : Char) (h : c.isDigit = true) : 48 ≤ c.toNat ∧ c.toNat ≤ 57 := by
  simp only [Char.isDigit, Bool.and_eq_true, decide_eq_true_eq] at h
  obtain ⟨h1, h2⟩ := h
  have h1' : (48 : UInt32).toNat ≤ c.val.toNat := h1
  have h2' : c.val.toNat ≤ (57 : UInt32).toNat := h2
  exact ⟨h1', h2'⟩

theorem digit_not_space (c : Char) (h : c.isDigit = true) : isStrWhiteSpaceChar c = false := by
  have := digit_bounds c h
  unfold isStrWhiteSpaceChar
  simp only [decide_eq_false_iff_not, List.mem_cons, List.mem_singleton, List.not_mem_nil,
    or_false]
  omega

theorem digit_ne (c d : Char) (h : c.isDigit = true) (hd : d.isDigit = false) : c ≠ d := by
  intro e; rw [e, hd] at h; exact absurd h (by decide)

theorem parseSigned_digit (c : Char) (cs : List Char) (h : c.isDigit = true) :
    parseSigned (c :: cs) =
      (match parseUnsigned (c :: cs) with
       | some m => ofMag false m
       | none => .nan) := by
  have h1 : c ≠ '-' := digit_ne c '-' h (by decide)
  have h2 : c ≠ '+' := digit_ne c '+' h (by decide)
  unfold parseSigned
  split
  · rename_i heq; injection heq with e1 e2; exact absurd e1 h1
  · rename_i heq; injection heq with e1 e2; exact absurd e1 h2
  · rfl

theorem infinity_not_at_head (c : Char) (cs : List Char) (h : c ≠ 'I') :
    "Infinity".data.isPrefixOf (c :: cs) = false := by
  show ('I' :: "nfinity".data).isPrefixOf (c :: cs) = false
  simp only [List.isPrefixOf, Bool.and_eq_false_imp, beq_iff_eq]
  intro e; exact absurd e.symm h

theorem digitsVal_append_zeros (ds : List Char) (t : Nat) :
    digitsVal (ds ++ List.replicate t '0') = digitsVal ds * 10 ^ t := by
  induction t with
  | zero => simp
  | succ t ih =>
    rw [List.replicate_succ', ← List.append_assoc, digitsVal_append, ih, pow_succ]
    have : ('0' : Char).toNat - 48 = 0 := by decide
    rw [this]; ring

/-- An unsigned digit string of an integer up to `2^53` parses to that integer. -/
theorem parseUnsigned_digits (n : Nat) (hn : n ≤ 2 ^ 53) :
    parseUnsigned (digitsOf n) = some (some (n * one)) := by
  have hne := digitsOf_ne_nil n
  have hall := digitsOf_isDigit n
  cases hds : digitsOf n with
  | nil => exact absurd hds hne
  | cons c cs =>
    have hc : c.isDigit = true := hall c (by rw [hds]; exact List.mem_cons_self _ _)
    have hI : c ≠ 'I' := digit_ne c 'I' hc (by decide)
    have htake : (c :: cs).takeWhile Char.isDigit = c :: cs := by
      have := takeWhile_append_of_all Char.isDigit (c :: cs) [] (by rw [← hds]; exact hall)
      simpa using this
    have hdrop : (c :: cs).dropWhile Char.isDigit = [] := by
      have := dropWhile_append_of_all Char.isDigit (c :: cs) [] (by rw [← hds]; exact hall)
      simpa using this
    unfold parseUnsigned
    rw [infinity_not_at_head c cs hI]
    simp only [htake, hdrop, Bool.false_eq_true, if_false, List.isEmpty_cons]
    rw [← hds, digitsVal_digitsOf]
    have : decToMag n (parseExponent []) = some (n * one) := by
      show decToMag n ((0 : Nat) : Int) = _
      rw [decToMag_nonneg, pow_zero, Nat.mul_one]
      exact roundMag_exact_one n hn
    rw [this]

/-- A digit string followed by `.0000000` parses to the same integer. -/
theorem parseUnsigned_fixed (n : Nat) (hn : n ≤ 2 ^ 53) :
    parseUnsigned (digitsOf n ++ '.' :: List.replicate 7 '0') = some (some (n * one)) := by
  have hne := digitsOf_ne_nil n
  have hall := digitsOf_isDigit n
  have htake : (digitsOf n ++ '.' :: List.replicate 7 '0').takeWhile Char.isDigit =
      digitsOf n := by
    rw [takeWhile_append_of_all _ _ _ hall]
    simp [List.takeWhile_cons, show Char.isDigit '.' = false by decide]
  have hdrop : (digitsOf n ++ '.' :: List.replicate 7 '0').dropWhile Char.isDigit =
      '.' :: List.replicate 7 '0' := by
    rw [dropWhile_append_of_all _ _ _ hall]
    simp [List.dropWhile_cons, show Char.isDigit '.' = false by decide]
  have htake2 : (List.replicate 7 '0').takeWhile Char.isDigit = List.replicate 7 '0' := by
    decide
  have hdrop2 : (List.replicate 7 '0').dropWhile Char.isDigit = [] := by decide
  cases hds : digitsOf n with
  | nil => exact absurd hds hne
  | cons c cs =>
    have hc : c.isDigit = true := hall c (by rw [hds]; exact List.mem_cons_self _ _)
    have hI : c ≠ 'I' := digit_ne c 'I' hc (by decide)
    rw [hds] at htake hdrop
    unfold parseUnsigned
    rw [List.cons_append, infinity_not_at_head c _ hI]
    rw [List.cons_append] at htake hdrop
    simp only [htake, hdrop, htake2, hdrop2, Bool.false_eq_true, if_false, List.isEmpty_cons,
      false_and]
    rw [← hds, digitsVal_append_zeros, digitsVal_digitsOf]
    have : decToMag (n * 10 ^ 7) (parseExponent [] - ((List.replicate 7 '0').length : Int)) =
        some (n * one) := by
      show decToMag (n * 10 ^ 7) (((0 : Nat) : Int) - ((List.replicate 7 '0').length : Int)) = _
      rw [List.length_replicate]
      have e : (((0 : Nat) : Int) - ((7 : Nat) : Int)) = -((7 : Nat) : Int) := by omega
      rw [e, decToMag_neg, show n * 10 ^ 7 * one = n * one * 10 ^ 7 by ring]
      exact roundMag_exact n _ (by positivity) hn
    rw [this]

theorem repr_eq_digitsOf (n : Nat) : Nat.repr n = String.mk (digitsOf n) := rfl

theorem int_repr_eq (z : Int) :
    Int.repr z = String.mk ((if z < 0 then ['-'] else []) ++ digitsOf z.natAbs) := by
  cases z with
  | ofNat m =>
    have : ¬ (Int.ofNat m < 0) := by simp
    simp only [Int.repr, this, if_false, List.nil_append, Int.natAbs_ofNat]
    rfl
  | negSucc m =>
    have : Int.negSucc m < 0 := Int.negSucc_lt_zero m
    simp only [Int.repr, this, if_true, Int.natAbs_negSucc]
    rfl

theorem ofInt_natCast (n : Nat) : ofInt (n : Int) = .fin false (n * one) := by
  unfold ofInt
  have : ¬ ((n : Int) < 0) := by omega
  simp [this]

theorem parseFloat_digits (n : Nat) (hn : n ≤ 2 ^ 53) :
    parseFloat (String.mk (digitsOf n)) = .fin false (n * one) := by
  have hne := digitsOf_ne_nil n
  have hall := digitsOf_isDigit n
  unfold parseFloat
  show parseSigned ((digitsOf n).dropWhile isStrWhiteSpaceChar) = _
  have hu := parseUnsigned_digits n hn
  cases hds : digitsOf n with
  | nil => exact absurd hds hne
  | cons c cs =>
    have hc : c.isDigit = true := hall c (by rw [hds]; exact List.mem_cons_self _ _)
    rw [hds] at hu
    rw [List.dropWhile_cons, digit_not_space c hc]
    simp only [Bool.false_eq_true, if_false]
    rw [parseSigned_digit c cs hc, hu]
    rfl

theorem parseFloat_fixed (s : Bool) (n : Nat) (hn : n ≤ 2 ^ 53) :
    parseFloat (String.mk ((if s = true ∧ n ≠ 0 then ['-'] else []) ++
        (digitsOf n ++ '.' :: List.replicate 7 '0'))) =
      .fin (decide (s = true ∧ n ≠ 0)) (n * one) := by
  have hne := digitsOf_ne_nil n
  have hall := digitsOf_isDigit n
  have hu := parseUnsigned_fixed n hn
  unfold parseFloat
  by_cases hs : s = true ∧ n ≠ 0
  · simp only [hs, and_self, if_true, decide_True, ne_eq, not_false_eq_true]
    show parseSigned (('-' :: (digitsOf n ++ '.' :: List.replicate 7 '0')).dropWhile
      isStrWhiteSpaceChar) = _
    rw [List.dropWhile_cons, show isStrWhiteSpaceChar '-' = false by decide]
    simp only [Bool.false_eq_true, if_false]
    unfold parseSigned
    simp only [hu]
    rfl
  · simp only [hs, if_false, decide_False]
    show parseSigned ((digitsOf n ++ '.' :: List.replicate 7 '0').dropWhile
      isStrWhiteSpaceChar) = _
    cases hds : digitsOf n with
    | nil => exact absurd hds hne
    | cons c cs =>
      have hc : c.isDigit = true := hall c (by rw [hds]; exact List.mem_cons_self _ _)
      rw [hds] at hu
      rw [List.cons_append, List.dropWhile_cons, digit_not_space c hc]
      simp only [Bool.false_eq_true, if_false]
      rw [parseSigned_digit c _ hc, ← List.cons_append, hu]
      rfl

theorem numToString_nat (n : Nat) (hn : n < 2 ^ 53) :
    numToString (.fin false (n * one)) = Nat.repr n := by
  rcases Nat.eq_zero_or_pos n with h0 | hpos
  · subst h0
    simp only [numToString, Nat.zero_mul, if_true]
    decide
  · rw [numToString_int false n hpos hn]
    rfl

/-- Reformatting an integer double of magnitude below `2^53` prints the integer;
a negative zero prints as `0`. -/
theorem reformat_int (s : Bool) (n : Nat) (hn : n < 2 ^ 53) :
    reformat (.fin s (n * one)) =
      String.mk ((if s = true ∧ n ≠ 0 then ['-'] else []) ++ digitsOf n) := by
  unfold reformat
  rw [toFixed_int s n hn, parseFloat_fixed s n (le_of_lt hn)]
  rcases Nat.eq_zero_or_pos n with h0 | hpos
  · subst h0
    simp only [numToString, Nat.zero_mul, if_true, ne_eq, not_true_eq_false, and_false,
      if_false, List.nil_append]
    decide
  · rw [numToString_int _ n hpos hn]
    have hn0 : n ≠ 0 := by omega
    cases s <;> simp [hn0]

/-! ## Arithmetic on integer doubles -/

theorem mul_one_lt_iff (m n : Nat) : m * one < n * one ↔ m < n :=
  Nat.mul_lt_mul_right one_pos

/-- The sum of two integer doubles of magnitude at most `2^53`, when the
magnitude of the result is at most `2^53` as well. -/
theorem add_fin (s t : Bool) (m n : Nat) (hm : m ≤ 2 ^ 53) (hn : n ≤ 2 ^ 53)
    (h : s = t → m + n ≤ 2 ^ 53) :
    (JSNum.fin s (m * one)).add (.fin t (n * one)) =
      if s = t then .fin s ((m + n) * one)
      else if n < m then .fin s ((m - n) * one)
      else if m < n then .fin t ((n - m) * one)
      else .fin false 0 := by
  simp only [JSNum.add, mul_one_lt_iff]
  by_cases hst : s = t
  · simp only [hst, if_true]
    rw [← Nat.add_mul, roundMag_exact_one _ (h hst)]
    rfl
  · simp only [hst, if_false]
    by_cases h1 : n < m
    · simp only [h1, if_true]
      rw [← Nat.sub_mul, roundMag_exact_one _ (by omega)]
      rfl
    · simp only [h1, if_false]
      by_cases h2 : m < n
      · simp only [h2, if_true]
        rw [← Nat.sub_mul, roundMag_exact_one _ (by omega)]
        rfl
      · simp only [h2, if_false]

/-- The product of two integer doubles when it is at most `2^53`. -/
theorem mul_fin (s t : Bool) (m n : Nat) (h : m * n ≤ 2 ^ 53) :
    (JSNum.fin s (m * one)).mul (.fin t (n * one)) = .fin (s != t) (m * n * one) := by
  simp only [JSNum.mul]
  rw [show m * one * (n * one) = m * n * one * one by ring, roundMag_exact _ _ one_pos h]
  rfl

theorem add_ofInt (x y : Int) (hx' : x.natAbs ≤ 2 ^ 53) (hy' : y.natAbs ≤ 2 ^ 53)
    (h : (x + y).natAbs ≤ 2 ^ 53) :
    (ofInt x).add (ofInt y) = ofInt (x + y) := by
  unfold ofInt
  rw [add_fin _ _ _ _ hx' hy' (by
    intro hst
    simp only [decide_eq_decide] at hst
    omega)]
  by_cases hx : x < 0 <;> by_cases hy : y < 0
  · have e : (x + y).natAbs = x.natAbs + y.natAbs := by omega
    have hs : x + y < 0 := by omega
    simp [hx, hy, hs, e]
  · simp only [hx, hy, decide_True, decide_False, Bool.true_eq_false, if_false]
    split
    · have e : (x + y).natAbs = x.natAbs - y.natAbs := by omega
      have hs : x + y < 0 := by omega
      simp [hs, e]
    · split
      · have e : (x + y).natAbs = y.natAbs - x.natAbs := by omega
        have hs : ¬ (x + y < 0) := by omega
        simp [hs, e]
      · have e : x + y = 0 := by omega
        simp [e]
  · simp only [hx, hy, decide_True, decide_False, Bool.false_eq_true, if_false]
    split
    · have e : (x + y).natAbs = x.natAbs - y.natAbs := by omega
      have hs : ¬ (x + y < 0) := by omega
      simp [hs, e]
    · split
      · have e : (x + y).natAbs = y.natAbs - x.natAbs := by omega
        have hs : x + y < 0 := by omega
        simp [hs, e]
      · have e : x + y = 0 := by omega
        simp [e]
  · have e : (x + y).natAbs = x.natAbs + y.natAbs := by omega
    have hs : ¬ (x + y < 0) := by omega
    simp [hx, hy, hs, e]

theorem sub_ofInt (x y : Int) (hx' : x.natAbs ≤ 2 ^ 53) (hy' : y.natAbs ≤ 2 ^ 53)
    (h : (x - y).natAbs ≤ 2 ^ 53) :
    (ofInt x).sub (ofInt y) = ofInt (x - y) := by
  unfold JSNum.sub ofInt
  simp only [JSNum.neg]
  rw [add_fin _ _ _ _ hx' hy' (by
    intro hst
    have hst' : ¬ (x < 0 ↔ y < 0) := by
      intro hiff
      have : decide (x < 0) = decide (y < 0) := by simp only [decide_eq_decide]; exact hiff
      rw [this] at hst
      cases hd : decide (y < 0) <;> rw [hd] at hst <;> simp at hst
    omega)]
  by_cases hx : x < 0 <;> by_cases hy : y < 0
  · simp only [hx, hy, decide_True, Bool.not_true, Bool.true_eq_false, if_false]
    split
    · have e : (x - y).natAbs = x.natAbs - y.natAbs := by omega
      have hs : x - y < 0 := by omega
      simp [hs, e]
    · split
      · have e : (x - y).natAbs = y.natAbs - x.natAbs := by omega
        have hs : ¬ (x - y < 0) := by omega
        simp [hs, e]
      · have e : x - y = 0 := by omega
        simp [e]
  · have e : (x - y).natAbs = x.natAbs + y.natAbs := by omega
    have hs : x - y < 0 := by omega
    simp [hx, hy, hs, e]
  · have e : (x - y).natAbs = x.natAbs + y.natAbs := by omega
    have hs : ¬ (x - y < 0) := by omega
    simp [hx, hy, hs, e]
  · simp only [hx, hy, decide_False, Bool.not_false, Bool.false_eq_true, if_false]
    split
    · have e : (x - y).natAbs = x.natAbs - y.natAbs := by omega
      have hs : ¬ (x - y < 0) := by omega
      simp [hs, e]
    · split
      · have e : (x - y).natAbs = y.natAbs - x.natAbs := by omega
        have hs : x - y < 0 := by omega
        simp [hs, e]
      · have e : x - y = 0 := by omega
        simp [e]

theorem mul_ofInt (x y : Int) (h : x.natAbs * y.natAbs ≤ 2 ^ 53) :
    (ofInt x).mul (ofInt y) =
      .fin (decide (x < 0) != decide (y < 0)) ((x * y).natAbs * one) := by
  unfold ofInt
  rw [mul_fin _ _ _ _ h, Int.natAbs_mul]

theorem truthy_or_zero (x : Int) :
    (if (ofInt x).truthy = true then ofInt x else ofInt 0) = ofInt x := by
  by_cases h : (ofInt x).truthy = true
  · rw [if_pos h]
  · rw [if_neg h]
    unfold ofInt JSNum.truthy at h
    simp only [bne_iff_ne, ne_eq, not_not] at h
    have h0 : x.natAbs = 0 := by
      rcases Nat.eq_zero_or_pos x.natAbs with h1 | h1
      · exact h1
      · exact absurd h (Nat.pos_iff_ne_zero.mp (Nat.mul_pos h1 one_pos))
    have hx : x = 0 := Int.natAbs_eq_zero.mp h0
    rw [hx]

/-- Reformatting a double that holds the integer `z` (with either sign of
zero) gives the decimal text of `z`. -/
theorem reformat_signed (s : Bool) (n : Nat) (z : Int) (hn : n < 2 ^ 53)
    (habs : z.natAbs = n) (hs : (s = true ∧ n ≠ 0) ↔ z < 0) :
    reformat (.fin s (n * one)) = Int.repr z := by
  rw [reformat_int s n hn, int_repr_eq, habs]
  by_cases hz : z < 0
  · rw [if_pos (hs.mpr hz), if_pos hz]
  · rw [if_neg (fun h => hz (hs.mp h)), if_neg hz]

theorem reformat_ofInt (z : Int) (hz : z.natAbs < 2 ^ 53) : reformat (ofInt z) = Int.repr z := by
  unfold ofInt
  apply reformat_signed _ _ z hz rfl
  simp only [decide_eq_true_eq, ne_eq]
  omega

/-! ## Typing numbers and resolving operators -/

theorem digit_step_frame (M : MathFns) (c : Char) (s : State) (hc : c.isDigit = true) :
    (processInput M (String.singleton c) s).previousInput = s.previousInput ∧
    (processInput M (String.singleton c) s).operator = s.operator ∧
    (processInput M (String.singleton c) s).history = s.history ∧
    (processInput M (String.singleton c) s).historyStack = s.historyStack := by
  rw [processInput_digit_char M c s hc]
  unfold inputNumber updateDisplay clearError
  split <;> exact ⟨rfl, rfl, rfl, rfl⟩

theorem run_digits_frame (M : MathFns) (ds : List Char) (hd : ∀ c ∈ ds, c.isDigit = true) :
    ∀ s : State,
      (run M (ds.map String.singleton) s).previousInput = s.previousInput ∧
      (run M (ds.map String.singleton) s).operator = s.operator ∧
      (run M (ds.map String.singleton) s).history = s.history ∧
      (run M (ds.map String.singleton) s).historyStack = s.historyStack := by
  induction ds with
  | nil => intro s; exact ⟨rfl, rfl, rfl, rfl⟩
  | cons d ds ih =>
    intro s
    rw [List.map_cons, run_cons]
    obtain ⟨h1, h2, h3, h4⟩ := ih (fun c h => hd c (List.mem_cons_of_mem _ h))
      (processInput M (String.singleton d) s)
    obtain ⟨g1, g2, g3, g4⟩ := digit_step_frame M d s (hd d (List.mem_cons_self _ _))
    exact ⟨h1.trans g1, h2.trans g2, h3.trans g3, h4.trans g4⟩

theorem dropWhile_zero_digitsOf (n : Nat) (hn : 0 < n) :
    (digitsOf n).dropWhile (fun c => c == '0') = digitsOf n := by
  have hne := digitsOf_ne_nil n
  have hh := digitsOf_head n hn
  cases hds : digitsOf n with
  | nil => exact absurd hds hne
  | cons c cs =>
    rw [hds] at hh
    have hc : ¬ (c = '0') := by simpa using hh
    simp [List.dropWhile_cons, hc]

/-- Typing the digits of `n` into the input `"0"` leaves the text of `n`. -/
theorem type_number_fresh (M : MathFns) (n : Nat) (s : State)
    (hw : s.waitingForOperand = false) (hc : s.currentInput = "0") :
    (run M (digitTokens n) s).currentInput = Nat.repr n ∧
    (run M (digitTokens n) s).waitingForOperand = false := by
  obtain ⟨h1, h2⟩ := run_digits_zero M (digitsOf n) (digitsOf_isDigit n) s hw hc
  refine ⟨?_, h1⟩
  show (run M ((digitsOf n).map String.singleton) s).currentInput = _
  rw [h2]
  rcases Nat.eq_zero_or_pos n with h0 | hpos
  · subst h0; decide
  · rw [dropWhile_zero_digitsOf n hpos, if_neg (digitsOf_ne_nil n)]
    rfl

/-- Typing the digits of `n` after an operator or `=` replaces the input by the
text of `n`. -/
theorem type_number_waiting (M : MathFns) (n : Nat) (s : State)
    (hw : s.waitingForOperand = true) :
    (run M (digitTokens n) s).currentInput = Nat.repr n ∧
    (run M (digitTokens n) s).waitingForOperand = false := by
  have hne := digitsOf_ne_nil n
  have hall := digitsOf_isDigit n
  have hh := digitsOf_head n
  show (run M ((digitsOf n).map String.singleton) s).currentInput = String.mk (digitsOf n) ∧
    (run M ((digitsOf n).map String.singleton) s).waitingForOperand = false
  cases hds : digitsOf n with
  | nil => exact absurd hds hne
  | cons c cs =>
    rw [hds] at hall hh
    have hc : c.isDigit = true := hall c (List.mem_cons_self _ _)
    rw [List.map_cons, run_cons]
    have hstep : (processInput M (String.singleton c) s).currentInput = String.mk [c] ∧
        (processInput M (String.singleton c) s).waitingForOperand = false := by
      rw [processInput_digit_char M c s hc]
      simp only [updateDisplay, inputNumber, clearError, hw, if_true]
      exact ⟨rfl, trivial⟩
    by_cases hz : c = '0'
    · have hn0 : n = 0 := by
        rcases Nat.eq_zero_or_pos n with h0 | hpos
        · exact h0
        · exact absurd (by rw [hz]; rfl) (hh hpos)
      have hcs : cs = [] := by
        rw [hn0] at hds
        have : digitsOf 0 = ['0'] := by decide
        rw [this] at hds
        injection hds with _ e
        exact e.symm
      rw [hcs]
      exact ⟨by rw [List.map_nil, run_nil]; exact hstep.1,
        by rw [List.map_nil, run_nil]; exact hstep.2⟩
    · obtain ⟨h1, h2⟩ := run_digits_append M cs (fun d hd => hall d (List.mem_cons_of_mem _ hd))
        _ [c] hstep.2 hstep.1 (by simp) (by simpa using hz)
      exact ⟨h2, h1⟩

theorem type_number_frame (M : MathFns) (n : Nat) (s : State) :
    (run M (digitTokens n) s).previousInput = s.previousInput ∧
    (run M (digitTokens n) s).operator = s.operator ∧
    (run M (digitTokens n) s).history = s.history ∧
    (run M (digitTokens n) s).historyStack = s.historyStack :=
  run_digits_frame M (digitsOf n) (digitsOf_isDigit n) s

theorem operator_first (M : MathFns) (op : String) (s : State)
    (hop : op ∈ ["+", "-", "*", "/"]) (hp : s.previousInput = none) :
    (processInput M op s).previousInput = some (parseFloat s.currentInput) ∧
    (processInput M op s).operator = op ∧
    (processInput M op s).waitingForOperand = true ∧
    (processInput M op s).currentInput = s.currentInput := by
  rw [processInput_operator M op s hop]
  have hp' : (clearError s).previousInput = none := hp
  simp only [updateDisplay, inputOperator, hp', updateHistory]
  refine ⟨?_, ?_, ?_, ?_⟩ <;> first | rfl | trivial

theorem performCalculation_value (x y : JSNum) (op : String) (s : State)
    (hop : op ∈ ["+", "-", "*"]) :
    (performCalculation x y op s).1 =
      (if op = "+" then x.add y else if op = "-" then x.sub y else x.mul y) := by
  simp only [List.mem_cons, List.mem_singleton, List.not_mem_nil, or_false] at hop
  rcases hop with h | h | h <;> subst h <;> simp [performCalculation]

theorem operator_chain (M : MathFns) (op2 : String) (s : State) (p : JSNum)
    (hop : op2 ∈ ["+", "-", "*", "/"]) (hp : s.previousInput = some p)
    (ho : s.operator ∈ ["+", "-", "*"]) :
    (processInput M op2 s).previousInput =
      some (performCalculation (if p.truthy = true then p else ofInt 0)
        (parseFloat s.currentInput) s.operator (clearError s)).1 ∧
    (processInput M op2 s).operator = op2 ∧
    (processInput M op2 s).waitingForOperand = true := by
  rw [processInput_operator M op2 s hop]
  have hp' : (clearError s).previousInput = some p := hp
  have ho' : (clearError s).operator ≠ "" := by
    show s.operator ≠ ""
    intro h; rw [h] at ho; exact absurd ho (by decide)
  simp only [updateDisplay, inputOperator, hp', updateHistory, ho', ne_eq, not_false_eq_true,
    if_true]
  refine ⟨?_, ?_, ?_⟩ <;> first | rfl | trivial

theorem equals_step (M : MathFns) (s : State) (p : JSNum)
    (hp : s.previousInput = some p) (ho : s.operator ∈ ["+", "-", "*"]) :
    (processInput M "=" s).currentInput =
      reformat (performCalculation p (parseFloat s.currentInput) s.operator (clearError s)).1 ∧
    (processInput M "=" s).history =
      numToString p ++ " " ++ getOperatorSymbol s.operator ++ " " ++
        numToString (parseFloat s.currentInput) ++ " = " ++
        numToString (performCalculation p (parseFloat s.currentInput) s.operator
          (clearError s)).1 := by
  rw [processInput_equals]
  have hp' : (clearError s).previousInput = some p := hp
  have ho' : (clearError s).operator ≠ "" := by
    show s.operator ≠ ""
    intro h; rw [h] at ho; exact absurd ho (by decide)
  simp only [updateDisplay, calculate, hp', updateHistory, ho', ne_eq, not_false_eq_true,
    if_true]
  exact ⟨rfl, rfl⟩

/-- The calculator's `+`, `-`, `*` on integer doubles agree with the integers
while all magnitudes stay below `2^53`. -/
theorem performCalculation_int (op : String) (x y : Int) (s : State)
    (hop : op ∈ ["+", "-", "*"]) (hx : x.natAbs < 2 ^ 53) (hy : y.natAbs < 2 ^ 53)
    (hr : (intOp op x y).natAbs < 2 ^ 53) :
    reformat (performCalculation (ofInt x) (ofInt y) op s).1 = Int.repr (intOp op x y) ∧
    (0 ≤ x → 0 ≤ y → (performCalculation (ofInt x) (ofInt y) op s).1 = ofInt (intOp op x y)) ∧
    (op ≠ "*" → (performCalculation (ofInt x) (ofInt y) op s).1 = ofInt (intOp op x y)) := by
  rw [performCalculation_value _ _ _ _ hop]
  simp only [List.mem_cons, List.mem_singleton, List.not_mem_nil, or_false] at hop
  rcases hop with h | h | h <;> subst h
  · have e : intOp "+" x y = x + y := by simp [intOp]
    rw [e] at hr ⊢
    simp only [if_true]
    rw [add_ofInt x y (by omega) (by omega) (by omega)]
    exact ⟨reformat_ofInt _ hr, fun _ _ => rfl, fun _ => rfl⟩
  · have e : intOp "-" x y = x - y := by simp [intOp]
    rw [e] at hr ⊢
    have h1 : ¬ ("-" = "+") := by decide
    simp only [h1, if_false, if_true]
    rw [sub_ofInt x y (by omega) (by omega) (by omega)]
    exact ⟨reformat_ofInt _ hr, fun _ _ => rfl, fun _ => rfl⟩
  · have e : intOp "*" x y = x * y := by simp [intOp]
    rw [e] at hr ⊢
    have h1 : ¬ ("*" = "+") := by decide
    have h2 : ¬ ("*" = "-") := by decide
    simp only [h1, h2, if_false]
    have hxy : x.natAbs * y.natAbs ≤ 2 ^ 53 := by
      rw [← Int.natAbs_mul]; omega
    rw [mul_ofInt x y hxy]
    refine ⟨?_, ?_, fun h => absurd rfl h⟩
    · apply reformat_signed _ _ (x * y) hr rfl
      simp only [bne_iff_ne, ne_eq, decide_eq_decide, Int.natAbs_eq_zero]
      constructor
      · rintro ⟨h3, h4⟩
        rcases Int.mul_eq_zero.not.mp h4 |> not_or.mp with ⟨hx0, hy0⟩
        by_cases hxn : x < 0
        · have hyn : ¬ (y < 0) := fun hyn => h3 ⟨fun _ => hyn, fun _ => hxn⟩
          exact Int.mul_neg_of_neg_of_pos hxn (by omega)
        · have hyn : y < 0 := by
            by_contra hyn
            exact h3 ⟨fun h => absurd h hxn, fun h => absurd h hyn⟩
          exact Int.mul_neg_of_pos_of_neg (by omega) hyn
      · intro hneg
        constructor
        · intro hiff
          by_cases hxn : x < 0
          · have := Int.mul_pos_of_neg_of_neg hxn (hiff.mp hxn)
            omega
          · have hyn : ¬ (y < 0) := fun h => hxn (hiff.mpr h)
            have := Int.mul_nonneg (show 0 ≤ x by omega) (show 0 ≤ y by omega)
            omega
        · intro h0; rw [h0] at hneg; exact absurd hneg (by decide)
    · intro hx0 hy0
      unfold ofInt
      have h3 : ¬ (x < 0) := by omega
      have h4 : ¬ (y < 0) := by omega
      have h5 : ¬ (x * y < 0) := by
        have := Int.mul_nonneg hx0 hy0
        omega
      simp [h3, h4, h5]

theorem run_snoc (M : MathFns) (ts : List String) (t : String) (s : State) :
    run M (ts ++ [t]) s = processInput M t (run M ts s) := by
  rw [run_append]; rfl

theorem natAbs_natCast_lt (n : Nat) (h : n < 2 ^ 53) : ((n : Int)).natAbs < 2 ^ 53 := by
  simpa using h

/-- Typing `a + b =` into a fresh input. -/
theorem addition_from (M : MathFns) (s : State) (a b : Nat) (hab : a + b < 2 ^ 53)
    (hc : s.currentInput = "0") (hw : s.waitingForOperand = false)
    (hp : s.previousInput = none) :
    (run M (digitTokens a ++ ["+"] ++ digitTokens b ++ ["="]) s).currentInput =
      Nat.repr (a + b) ∧
    (run M (digitTokens a ++ ["+"] ++ digitTokens b ++ ["="]) s).history =
      Nat.repr a ++ " + " ++ Nat.repr b ++ " = " ++ Nat.repr (a + b) := by
  have ha : a < 2 ^ 53 := by omega
  have hb : b < 2 ^ 53 := by omega
  rw [run_snoc, run_append, run_snoc]
  obtain ⟨c1, w1⟩ := type_number_fresh M a s hw hc
  obtain ⟨p1, -, -, -⟩ := type_number_frame M a s
  obtain ⟨p2, o2, w2, -⟩ := operator_first M "+" (run M (digitTokens a) s) (by decide)
    (p1.trans hp)
  rw [c1, repr_eq_digitsOf, parseFloat_digits a (le_of_lt ha), ← ofInt_natCast] at p2
  obtain ⟨c3, -⟩ := type_number_waiting M b (processInput M "+" (run M (digitTokens a) s)) w2
  obtain ⟨p3, o3, -, -⟩ := type_number_frame M b (processInput M "+" (run M (digitTokens a) s))
  have p3' := p3.trans p2
  have o3' := o3.trans o2
  obtain ⟨c4, h4⟩ := equals_step M _ (ofInt (a : Int)) p3' (by rw [o3']; decide)
  rw [c3, repr_eq_digitsOf, parseFloat_digits b (le_of_lt hb), ← ofInt_natCast, o3'] at c4 h4
  have hsum : intOp "+" (a : Int) (b : Int) = ((a + b : Nat) : Int) := by
    simp [intOp]
  obtain ⟨r1, r2, -⟩ := performCalculation_int "+" (a : Int) (b : Int)
    (clearError (run M (digitTokens b) (processInput M "+" (run M (digitTokens a) s))))
    (by decide) (natAbs_natCast_lt a ha) (natAbs_natCast_lt b hb)
    (by rw [hsum]; exact natAbs_natCast_lt _ hab)
  constructor
  · rw [c4, r1, hsum]
    rfl
  · rw [h4, r2 (by omega) (by omega), hsum, ofInt_natCast, ofInt_natCast, ofInt_natCast,
      numToString_nat a ha, numToString_nat b hb, numToString_nat _ hab]
    have hsym : getOperatorSymbol "+" = "+" := by decide
    rw [hsym]
    simp only [String.append_assoc]
    rfl

theorem mem_ops_of_mem_arith (op : String) (h : op ∈ ["+", "-", "*"]) :
    op ∈ ["+", "-", "*", "/"] := by
  simp only [List.mem_cons, List.mem_singleton, List.not_mem_nil, or_false] at h ⊢
  rcases h with h | h | h <;> simp [h]

/-- Typing `a op1 b op2 c =` into a fresh input. -/
theorem chained_from (M : MathFns) (s : State) (a b c : Nat) (op1 op2 : String)
    (h1 : op1 ∈ ["+", "-", "*"]) (h2 : op2 ∈ ["+", "-", "*"])
    (ha : a < 2 ^ 53) (hb : b < 2 ^ 53) (hc : c < 2 ^ 53)
    (hab : (intOp op1 a b).natAbs < 2 ^ 53)
    (habc : (intOp op2 (intOp op1 a b) c).natAbs < 2 ^ 53)
    (hcur : s.currentInput = "0") (hw : s.waitingForOperand = false)
    (hp : s.previousInput = none) :
    (run M (digitTokens a ++ [op1] ++ digitTokens b ++ [op2] ++ digitTokens c ++ ["="])
      s).currentInput = Int.repr (intOp op2 (intOp op1 a b) c) := by
  rw [run_snoc, run_append, run_snoc, run_append, run_snoc]
  obtain ⟨c1, w1⟩ := type_number_fresh M a s hw hcur
  obtain ⟨p1, -, -, -⟩ := type_number_frame M a s
  obtain ⟨p2, o2, w2, -⟩ := operator_first M op1 (run M (digitTokens a) s)
    (mem_ops_of_mem_arith op1 h1) (p1.trans hp)
  rw [c1, repr_eq_digitsOf, parseFloat_digits a (le_of_lt ha), ← ofInt_natCast] at p2
  obtain ⟨c3, -⟩ := type_number_waiting M b (processInput M op1 (run M (digitTokens a) s)) w2
  obtain ⟨p3, o3, -, -⟩ := type_number_frame M b (processInput M op1 (run M (digitTokens a) s))
  have p3' := p3.trans p2
  have o3' := o3.trans o2
  obtain ⟨p4, o4, w4⟩ := operator_chain M op2 _ (ofInt (a : Int))
    (mem_ops_of_mem_arith op2 h2) p3' (by rw [o3']; exact h1)
  rw [c3, repr_eq_digitsOf, parseFloat_digits b (le_of_lt hb), ← ofInt_natCast, o3',
    truthy_or_zero] at p4
  obtain ⟨-, r2, -⟩ := performCalculation_int op1 (a : Int) (b : Int)
    (clearError (run M (digitTokens b) (processInput M op1 (run M (digitTokens a) s))))
    h1 (natAbs_natCast_lt a ha) (natAbs_natCast_lt b hb) hab
  rw [r2 (by omega) (by omega)] at p4
  obtain ⟨c5, -⟩ := type_number_waiting M c _ w4
  obtain ⟨p5, o5, -, -⟩ := type_number_frame M c
    (processInput M op2 (run M (digitTokens b) (processInput M op1 (run M (digitTokens a) s))))
  have p5' := p5.trans p4
  have o5' := o5.trans o4
  obtain ⟨c6, -⟩ := equals_step M _ (ofInt (intOp op1 a b)) p5' (by rw [o5']; exact h2)
  rw [c5, repr_eq_digitsOf, parseFloat_digits c (le_of_lt hc), ← ofInt_natCast, o5'] at c6
  obtain ⟨r1, -, -⟩ := performCalculation_int op2 (intOp op1 a b) (c : Int)
    (clearError (run M (digitTokens c) (processInput M op2
      (run M (digitTokens b) (processInput M op1 (run M (digitTokens a) s))))))
    h2 hab (natAbs_natCast_lt c hc) habc
  rw [c6, r1]

theorem processInput_clear_fresh (M : MathFns) (s0 : State) :
    (processInput M "AC" s0).currentInput = "0" ∧
    (processInput M "AC" s0).waitingForOperand = false ∧
    (processInput M "AC" s0).previousInput = none := by
  have h : processInput M "AC" s0 = updateDisplay (clear (clearError s0)) := by
    simp [processInput]
  rw [h]
  exact ⟨rfl, rfl, rfl⟩

/-! ## Round trips -/

/-- Claim C2: for natural numbers `a` and `b` with `a + b < 2^53`, typed digit by
digit from the cleared state (after `AC`, or the initial state), the tokens
`a + b =` end with `currentInput` equal to the decimal text of `a + b` and the
history text `"<a> + <b> = <a+b>"`. -/
theorem addition_round_trip (M : MathFns) (s0 : State) (a b : Nat) (hab : a + b < 2 ^ 53) :
    (run M (digitTokens a ++ ["+"] ++ digitTokens b ++ ["="])
        (processInput M "AC" s0)).currentInput = Nat.repr (a + b) ∧
    (run M (digitTokens a ++ ["+"] ++ digitTokens b ++ ["="])
        (processInput M "AC" s0)).history =
      Nat.repr a ++ " + " ++ Nat.repr b ++ " = " ++ Nat.repr (a + b) ∧
    (run M (digitTokens a ++ ["+"] ++ digitTokens b ++ ["="]) initial).currentInput =
      Nat.repr (a + b) ∧
    (run M (digitTokens a ++ ["+"] ++ digitTokens b ++ ["="]) initial).history =
      Nat.repr a ++ " + " ++ Nat.repr b ++ " = " ++ Nat.repr (a + b) := by
  obtain ⟨f1, f2, f3⟩ := processInput_clear_fresh M s0
  obtain ⟨g1, g2⟩ := addition_from M (processInput M "AC" s0) a b hab f1 f2 f3
  obtain ⟨g3, g4⟩ := addition_from M initial a b hab rfl rfl rfl
  exact ⟨g1, g2, g3, g4⟩

/-- Claim C2 for `2 + 3 =`: the input is `"5"` and the history `"2 + 3 = 5"`. -/
theorem addition_round_trip_witness :
    (run nanMath ["2", "+", "3", "="] initial).currentInput = "5" ∧
    (run nanMath ["2", "+", "3", "="] initial).history = "2 + 3 = 5" :=
  (addition_round_trip nanMath initial 2 3 (by norm_num)).2.2

/-- Claim C3: for natural numbers `a`, `b`, `c` and operators `op1`, `op2` among
`+`, `-`, `*`, with all values below `2^53` in magnitude, the tokens
`a op1 b op2 c =` typed from the cleared state end with `currentInput` equal to
the decimal text of `(a op1 b) op2 c`: evaluation is left to right. -/
theorem chained_left_to_right (M : MathFns) (s0 : State) (a b c : Nat) (op1 op2 : String)
    (h1 : op1 ∈ ["+", "-", "*"]) (h2 : op2 ∈ ["+", "-", "*"])
    (ha : a < 2 ^ 53) (hb : b < 2 ^ 53) (hc : c < 2 ^ 53)
    (hab : (intOp op1 a b).natAbs < 2 ^ 53)
    (habc : (intOp op2 (intOp op1 a b) c).natAbs < 2 ^ 53) :
    (run M (digitTokens a ++ [op1] ++ digitTokens b ++ [op2] ++ digitTokens c ++ ["="])
      (processInput M "AC" s0)).currentInput = Int.repr (intOp op2 (intOp op1 a b) c) ∧
    (run M (digitTokens a ++ [op1] ++ digitTokens b ++ [op2] ++ digitTokens c ++ ["="])
      initial).currentInput = Int.repr (intOp op2 (intOp op1 a b) c) := by
  obtain ⟨f1, f2, f3⟩ := processInput_clear_fresh M s0
  exact ⟨chained_from M _ a b c op1 op2 h1 h2 ha hb hc hab habc f1 f2 f3,
    chained_from M initial a b c op1 op2 h1 h2 ha hb hc hab habc rfl rfl rfl⟩

/-- Claim C3 for `2 + 3 + 4 =`, which gives `"9"`, and `2 + 3 * 4 =`, which
gives `"20"`. -/
theorem chained_left_to_right_witness :
    (run nanMath ["2", "+", "3", "+", "4", "="] initial).currentInput = "9" ∧
    (run nanMath ["2", "+", "3", "*", "4", "="] initial).currentInput = "20" :=
  ⟨(chained_left_to_right nanMath initial 2 3 4 "+" "+" (by decide) (by decide)
      (by norm_num) (by norm_num) (by norm_num) (by decide) (by decide)).2,
   (chained_left_to_right nanMath initial 2 3 4 "+" "*" (by decide) (by decide)
      (by norm_num) (by norm_num) (by norm_num) (by decide) (by decide)).2⟩

/-! ## Pending operand and operator -/

theorem runActions_nil (M : MathFns) (s : State) : runActions M [] s = s := rfl

theorem runActions_snoc (M : MathFns) (as : List Action) (a : Action) (s : State) :
    runActions M (as ++ [a]) s = step M a (runActions M as s) := by
  simp [runActions, List.foldl_append]

theorem inputOperator_pending (op : String) (s : State) :
    (inputOperator op s).previousInput ≠ none ∧ (inputOperator op s).operator = op := by
  unfold inputOperator updateHistory
  cases hp : s.previousInput with
  | none => simp
  | some p =>
    by_cases ho : s.operator = ""
    · simp [ho, hp]
    · simp [ho]

theorem calculate_pending (s : State) (h : s.previousInput = none ↔ s.operator = "") :
    ((calculate s).previousInput = none ↔ (calculate s).operator = "") := by
  unfold calculate updateHistory
  cases hp : s.previousInput with
  | none => simpa [hp] using h
  | some p =>
    by_cases ho : s.operator = ""
    · rw [hp, ho] at h; simp at h
    · simp [ho]

/-- One event keeps `previousInput` and `operator` empty together. -/
theorem step_pending (M : MathFns) (a : Action) (s : State)
    (h : s.previousInput = none ↔ s.operator = "") :
    ((step M a s).previousInput = none ↔ (step M a s).operator = "") := by
  cases a with
  | backspace =>
    have h1 : (backspace s).previousInput = s.previousInput := by
      unfold backspace updateDisplay; split <;> rfl
    have h2 : (backspace s).operator = s.operator := by
      unfold backspace updateDisplay; split <;> rfl
    show (backspace s).previousInput = none ↔ (backspace s).operator = ""
    rw [h1, h2]; exact h
  | submit token =>
    show (processInput M token s).previousInput = none ↔ (processInput M token s).operator = ""
    have h0 : (clearError s).previousInput = none ↔ (clearError s).operator = "" := h
    unfold processInput
    simp only [updateDisplay]
    split
    · unfold inputNumber; split <;> exact h0
    split
    · unfold inputDecimal
      split
      · exact h0
      · split <;> exact h0
    split
    · rename_i hop
      obtain ⟨g1, g2⟩ := inputOperator_pending token (clearError s)
      rw [g2]
      constructor
      · intro e; exact absurd e g1
      · intro e
        rw [e] at hop
        exact absurd hop (by decide)
    split
    · exact calculate_pending _ h0
    split
    · simp [clear, clearError]
    split
    · unfold toggleSign; split <;> exact h0
    split
    · exact h0
    · unfold handleScientificFunction
      repeat' split
      all_goals exact h0

/-- Claim C12: in every state reached from the initial state by any sequence
of submitted tokens and backspaces, `previousInput` is empty exactly when
`operator` is empty. -/
theorem pending_operand_iff_operator (M : MathFns) (actions : List Action) :
    ((runActions M actions initial).previousInput = none ↔
      (runActions M actions initial).operator = "") := by
  induction actions using List.reverseRecOn with
  | nil => simp [runActions_nil, initial]
  | append_singleton as a ih =>
    rw [runActions_snoc]
    exact step_pending M a _ ih

/-! ## Equals without a pending operation, percent -/

theorem calculate_noop (s : State) (h : s.previousInput = none ∨ s.operator = "") :
    calculate s = s := by
  unfold calculate
  cases hp : s.previousInput with
  | none => rfl
  | some p =>
    rcases h with h | h
    · rw [hp] at h; exact absurd h (by simp)
    · simp [h]

/-- Claim C13: when `previousInput` is empty or `operator` is empty, submitting
`=` leaves `currentInput`, `previousInput`, `operator`, `waitingForOperand`, the
history text and the history log unchanged. -/
theorem equals_without_pending (M : MathFns) (s : State)
    (h : s.previousInput = none ∨ s.operator = "") :
    (processInput M "=" s).currentInput = s.currentInput ∧
    (processInput M "=" s).previousInput = s.previousInput ∧
    (processInput M "=" s).operator = s.operator ∧
    (processInput M "=" s).waitingForOperand = s.waitingForOperand ∧
    (processInput M "=" s).history = s.history ∧
    (processInput M "=" s).historyStack = s.historyStack := by
  rw [processInput_equals, calculate_noop (clearError s) h]
  exact ⟨rfl, rfl, rfl, rfl, rfl, rfl⟩

/-- Claim C13 after typing `7`. -/
theorem equals_without_pending_witness :
    (processInput nanMath "=" (run nanMath ["7"] initial)).currentInput =
      (run nanMath ["7"] initial).currentInput ∧
    (processInput nanMath "=" (run nanMath ["7"] initial)).previousInput =
      (run nanMath ["7"] initial).previousInput ∧
    (processInput nanMath "=" (run nanMath ["7"] initial)).operator =
      (run nanMath ["7"] initial).operator ∧
    (processInput nanMath "=" (run nanMath ["7"] initial)).waitingForOperand =
      (run nanMath ["7"] initial).waitingForOperand ∧
    (processInput nanMath "=" (run nanMath ["7"] initial)).history =
      (run nanMath ["7"] initial).history ∧
    (processInput nanMath "=" (run nanMath ["7"] initial)).historyStack =
      (run nanMath ["7"] initial).historyStack :=
  equals_without_pending nanMath (run nanMath ["7"] initial) (Or.inl (by decide))

theorem processInput_percent (M : MathFns) (s : State) :
    processInput M "%" s = updateDisplay (percentage (clearError s)) := by
  simp [processInput]

theorem percent_of_fifty : numToString ((parseFloat "50").div (ofInt 100)) = "0.5" := by
  decide!

theorem percent_unrounded :
    numToString ((parseFloat "0.00001").div (ofInt 100)) = "1.0000000000000001e-7" ∧
    reformat ((parseFloat "0.00001").div (ofInt 100)) = "1e-7" := by
  decide!

/-- Claim C17: after `%`, `currentInput` is the text of
`parseFloat(currentInput) / 100`, without the rounding to 7 decimals, and
`previousInput`, `operator` and `waitingForOperand` are unchanged; `"50"`
becomes `"0.5"`, and `"0.00001"` becomes `"1.0000000000000001e-7"`, which the
rounding path would print as `"1e-7"`. -/
theorem percent_divides_by_hundred (M : MathFns) (s : State) :
    (processInput M "%" s).currentInput =
      numToString ((parseFloat s.currentInput).div (ofInt 100)) ∧
    (processInput M "%" s).previousInput = s.previousInput ∧
    (processInput M "%" s).operator = s.operator ∧
    (processInput M "%" s).waitingForOperand = s.waitingForOperand ∧
    (s.currentInput = "50" → (processInput M "%" s).currentInput = "0.5") ∧
    (s.currentInput = "0.00001" →
      (processInput M "%" s).currentInput = "1.0000000000000001e-7" ∧
      (processInput M "%" s).currentInput ≠
        reformat ((parseFloat s.currentInput).div (ofInt 100))) := by
  rw [processInput_percent]
  refine ⟨rfl, rfl, rfl, rfl, ?_, ?_⟩
  · intro h
    show numToString ((parseFloat s.currentInput).div (ofInt 100)) = "0.5"
    rw [h]; exact percent_of_fifty
  · intro h
    show numToString ((parseFloat s.currentInput).div (ofInt 100)) = _ ∧
      numToString ((parseFloat s.currentInput).div (ofInt 100)) ≠ _
    rw [h, percent_unrounded.1, percent_unrounded.2]
    exact ⟨rfl, by decide⟩

/-- Claim C17 after typing `5 0`. -/
theorem percent_divides_by_hundred_witness :
    (processInput nanMath "%" (run nanMath ["5", "0"] initial)).currentInput = "0.5" :=
  (percent_divides_by_hundred nanMath (run nanMath ["5", "0"] initial)).2.2.2.2.1 (by decide)

/-! ## Waiting for an operand, division by zero on equals -/

/-- Claim C18: `waitingForOperand` is true after every binary operator and
after every `=` submitted with a pending operand and operator; in a state where
it is true, a digit token `d` makes `currentInput` exactly `d` and `.` makes it
exactly `"0."`, both resetting `waitingForOperand` to false. -/
theorem waiting_for_operand (M : MathFns) (s : State) (op : String) (d : Char)
    (hop : op ∈ ["+", "-", "*", "/"]) (hd : d.isDigit = true) :
    (processInput M op s).waitingForOperand = true ∧
    (s.previousInput ≠ none → s.operator ≠ "" →
      (processInput M "=" s).waitingForOperand = true) ∧
    (s.waitingForOperand = true →
      (processInput M (String.singleton d) s).currentInput = String.singleton d ∧
      (processInput M (String.singleton d) s).waitingForOperand = false ∧
      (processInput M "." s).currentInput = "0." ∧
      (processInput M "." s).waitingForOperand = false) := by
  refine ⟨?_, ?_, ?_⟩
  · rw [processInput_operator M op s hop]
    rfl
  · intro hp ho
    rw [processInput_equals]
    have ho' : (clearError s).operator ≠ "" := ho
    cases hq : s.previousInput with
    | none => exact absurd hq hp
    | some p =>
      have hq' : (clearError s).previousInput = some p := hq
      simp [updateDisplay, calculate, hq', ho', updateHistory]
  · intro hw
    rw [processInput_digit_char M d s hd, processInput_decimal]
    have hw' : (clearError s).waitingForOperand = true := hw
    simp [updateDisplay, inputNumber, inputDecimal, hw']

/-- Claim C18 around `1 2 +`. -/
theorem waiting_for_operand_witness :
    (processInput nanMath "+" (run nanMath ["1", "2"] initial)).waitingForOperand = true ∧
    (processInput nanMath "7" (run nanMath ["1", "2", "+"] initial)).currentInput = "7" ∧
    (processInput nanMath "." (run nanMath ["1", "2", "+"] initial)).currentInput = "0." ∧
    (processInput nanMath "=" (run nanMath ["1", "2", "+", "3"] initial)).waitingForOperand =
      true :=
  ⟨(waiting_for_operand nanMath (run nanMath ["1", "2"] initial) "+" '7' (by decide)
      (by decide)).1,
   ((waiting_for_operand nanMath (run nanMath ["1", "2", "+"] initial) "+" '7' (by decide)
      (by decide)).2.2 (by decide!)).1,
   ((waiting_for_operand nanMath (run nanMath ["1", "2", "+"] initial) "+" '7' (by decide)
      (by decide)).2.2 (by decide!)).2.2.1,
   (waiting_for_operand nanMath (run nanMath ["1", "2", "+", "3"] initial) "+" '7' (by decide)
      (by decide)).2.1 (by decide!) (by decide!)⟩

theorem numToString_zero (x : JSNum) (h : x.isZero = true) : numToString x = "0" := by
  cases x with
  | nan => simp [JSNum.isZero] at h
  | inf n => simp [JSNum.isZero] at h
  | fin n m =>
    cases m with
    | zero => simp [numToString]
    | succ k => simp [JSNum.isZero] at h

/-- Claim C20: when `=` resolves a pending division by zero with pending
operand `p`, the entry `"<p> ÷ 0 = <p>"` is appended to the history log and shown
as history text, `currentInput` becomes the reformatted `p`, `previousInput` and
`operator` are cleared and `waitingForOperand` is true. -/
theorem equals_division_by_zero (M : MathFns) (s : State) (p : JSNum)
    (hp : s.previousInput = some p) (ho : s.operator = "/")
    (hz : (parseFloat s.currentInput).isZero = true) :
    (processInput M "=" s).historyStack =
      s.historyStack ++ [numToString p ++ " ÷ 0 = " ++ numToString p] ∧
    (processInput M "=" s).history = numToString p ++ " ÷ 0 = " ++ numToString p ∧
    (processInput M "=" s).currentInput = reformat p ∧
    (processInput M "=" s).previousInput = none ∧
    (processInput M "=" s).operator = "" ∧
    (processInput M "=" s).waitingForOperand = true := by
  rw [processInput_equals]
  have hz' : (parseFloat (clearError s).currentInput).isZero = true := hz
  have hp' : (clearError s).previousInput = some p := hp
  have ho' : (clearError s).operator = "/" := ho
  have hsym : getOperatorSymbol "/" = "÷" := by decide
  have hzero : numToString (parseFloat (clearError s).currentInput) = "0" :=
    numToString_zero _ hz'
  have hexpr : numToString p ++ " " ++ "÷" ++ " " ++ "0" ++ " = " ++ numToString p =
      numToString p ++ " ÷ 0 = " ++ numToString p := by
    simp only [String.append_assoc]
    rfl
  simp only [updateDisplay, calculate, hp', ho', performCalculation_div_zero _ _ _ hz',
    updateHistory, hsym, hzero, hexpr, showError]
  simp [clearError]

/-- Claim C20 after `5 / 0`. -/
theorem equals_division_by_zero_witness :
    (processInput nanMath "=" (run nanMath ["5", "/", "0"] initial)).historyStack =
      ["5 ÷ 0 = 5"] ∧
    (processInput nanMath "=" (run nanMath ["5", "/", "0"] initial)).history = "5 ÷ 0 = 5" ∧
    (processInput nanMath "=" (run nanMath ["5", "/", "0"] initial)).currentInput = "5" ∧
    (processInput nanMath "=" (run nanMath ["5", "/", "0"] initial)).previousInput = none ∧
    (processInput nanMath "=" (run nanMath ["5", "/", "0"] initial)).operator = "" ∧
    (processInput nanMath "=" (run nanMath ["5", "/", "0"] initial)).waitingForOperand = true :=
  have h := equals_division_by_zero nanMath (run nanMath ["5", "/", "0"] initial) (ofInt 5)
    (by decide!) (by decide!) (by decide!)
  ⟨h.1.trans (by decide!), h.2.1.trans (by decide!), h.2.2.1.trans (by decide!),
    h.2.2.2.1, h.2.2.2.2.1, h.2.2.2.2.2⟩

/-! ## Resolution of a pending operator -/

theorem performCalculation_frame (a b : JSNum) (op : String) (s : State) :
    (performCalculation a b op s).2.historyStack = s.historyStack ∧
    (performCalculation a b op s).2.history = s.history ∧
    (performCalculation a b op s).2.currentInput = s.currentInput := by
  unfold performCalculation showError
  repeat' split
  all_goals exact ⟨rfl, rfl, rfl⟩

/-- The value returned by `performCalculation` does not depend on the state. -/
theorem performCalculation_value_state (a b : JSNum) (op : String) (s t : State) :
    (performCalculation a b op s).1 = (performCalculation a b op t).1 := by
  unfold performCalculation
  repeat' split
  all_goals rfl

/-- An accepted `=`: the fields written by `calculate`. -/
theorem equals_accepted (M : MathFns) (s : State) (p : JSNum)
    (hp : s.previousInput = some p) (ho : s.operator ≠ "") :
    (processInput M "=" s).currentInput =
      reformat (performCalculation p (parseFloat s.currentInput) s.operator s).1 ∧
    (processInput M "=" s).history =
      numToString p ++ " " ++ getOperatorSymbol s.operator ++ " " ++
        numToString (parseFloat s.currentInput) ++ " = " ++
        numToString (performCalculation p (parseFloat s.currentInput) s.operator s).1 ∧
    (processInput M "=" s).historyStack =
      s.historyStack ++ [numToString p ++ " " ++ getOperatorSymbol s.operator ++ " " ++
        numToString (parseFloat s.currentInput) ++ " = " ++
        numToString (performCalculation p (parseFloat s.currentInput) s.operator s).1] ∧
    (processInput M "=" s).previousInput = none ∧
    (processInput M "=" s).operator = "" ∧
    (processInput M "=" s).waitingForOperand = true := by
  rw [processInput_equals]
  have hp' : (clearError s).previousInput = some p := hp
  have ho' : (clearError s).operator ≠ "" := ho
  have hv := performCalculation_value_state p (parseFloat s.currentInput) s.operator
    (clearError s) s
  have hf := (performCalculation_frame p (parseFloat s.currentInput) s.operator
    (clearError s)).1
  have e1 : (clearError s).currentInput = s.currentInput := rfl
  have e2 : (clearError s).operator = s.operator := rfl
  simp only [updateDisplay, calculate, hp', ho', ho, updateHistory, ne_eq, not_false_eq_true,
    if_true, e1, e2, hv, hf]
  refine ⟨?_, ?_, ?_, ?_, ?_, ?_⟩ <;> first | rfl | trivial

/-- A binary operator submitted while another is pending: the fields written by
`inputOperator`. -/
theorem operator_resolves (M : MathFns) (op2 : String) (s : State) (p : JSNum)
    (hop : op2 ∈ ["+", "-", "*", "/"]) (hp : s.previousInput = some p)
    (ho : s.operator ≠ "") :
    (processInput M op2 s).previousInput =
      some (performCalculation (if p.truthy = true then p else ofInt 0)
        (parseFloat s.currentInput) s.operator s).1 ∧
    (processInput M op2 s).currentInput =
      reformat (performCalculation (if p.truthy = true then p else ofInt 0)
        (parseFloat s.currentInput) s.operator s).1 ∧
    (processInput M op2 s).operator = op2 ∧
    (processInput M op2 s).waitingForOperand = true := by
  rw [processInput_operator M op2 s hop]
  have hp' : (clearError s).previousInput = some p := hp
  have ho' : (clearError s).operator ≠ "" := ho
  have hv := performCalculation_value_state (if p.truthy = true then p else ofInt 0)
    (parseFloat s.currentInput) s.operator (clearError s) s
  have e1 : (clearError s).currentInput = s.currentInput := rfl
  have e2 : (clearError s).operator = s.operator := rfl
  simp only [updateDisplay, inputOperator, hp', ho', ho, updateHistory, ne_eq,
    not_false_eq_true, if_true, e1, e2, hv]
  refine ⟨?_, ?_, ?_, ?_⟩ <;> first | rfl | trivial

/-- Claim C14 fails after `2 + 3 .`: `currentInput` is `"3."`, the history
entry written by `=` is `"2 + 3 = 5"`, not `"2 + 3. = 5"`. -/
theorem history_entry_counterexample :
    (run nanMath ["2", "+", "3", "."] initial).previousInput = some (ofInt 2) ∧
    (run nanMath ["2", "+", "3", "."] initial).operator = "+" ∧
    (run nanMath ["2", "+", "3", "."] initial).currentInput = "3." ∧
    (processInput nanMath "=" (run nanMath ["2", "+", "3", "."] initial)).history =
      "2 + 3 = 5" ∧
    (processInput nanMath "=" (run nanMath ["2", "+", "3", "."] initial)).history ≠
      numToString (ofInt 2) ++ " " ++ getOperatorSymbol "+" ++ " " ++
        (run nanMath ["2", "+", "3", "."] initial).currentInput ++ " = " ++
        numToString (performCalculation (ofInt 2)
          (parseFloat (run nanMath ["2", "+", "3", "."] initial).currentInput) "+"
          (run nanMath ["2", "+", "3", "."] initial)).1 := by
  decide!

/-- Claim C14, amended: when `=` is accepted with pending operand `p` and
pending operator `op`, the string set as history text and appended to the
history log is `"<p> <opSymbol> <v> = <result>"`, where `v` is the number parsed
from `currentInput` printed back as text, `result` is the value of
`performCalculation`, and the symbols are `+`, `−`, `×`, `÷`. -/
theorem history_entry (M : MathFns) (s : State) (p : JSNum)
    (hp : s.previousInput = some p) (ho : s.operator ∈ ["+", "-", "*", "/"]) :
    (processInput M "=" s).history =
      numToString p ++ " " ++ getOperatorSymbol s.operator ++ " " ++
        numToString (parseFloat s.currentInput) ++ " = " ++
        numToString (performCalculation p (parseFloat s.currentInput) s.operator s).1 ∧
    (processInput M "=" s).historyStack =
      s.historyStack ++ [numToString p ++ " " ++ getOperatorSymbol s.operator ++ " " ++
        numToString (parseFloat s.currentInput) ++ " = " ++
        numToString (performCalculation p (parseFloat s.currentInput) s.operator s).1] ∧
    getOperatorSymbol "+" = "+" ∧ getOperatorSymbol "-" = "−" ∧
    getOperatorSymbol "*" = "×" ∧ getOperatorSymbol "/" = "÷" := by
  have ho' : s.operator ≠ "" := by
    intro h; rw [h] at ho; exact absurd ho (by decide)
  obtain ⟨-, h2, h3, -⟩ := equals_accepted M s p hp ho'
  exact ⟨h2, h3, by decide, by decide, by decide, by decide⟩

/-- Claim C14, amended, after `2 + 3 .`. -/
theorem history_entry_witness :
    (processInput nanMath "=" (run nanMath ["2", "+", "3", "."] initial)).history =
      "2 + 3 = 5" ∧
    (processInput nanMath "=" (run nanMath ["2", "+", "3", "."] initial)).historyStack =
      ["2 + 3 = 5"] :=
  ⟨(history_entry nanMath (run nanMath ["2", "+", "3", "."] initial) (ofInt 2)
      (by decide!) (by decide!)).1.trans (by decide!),
   (history_entry nanMath (run nanMath ["2", "+", "3", "."] initial) (ofInt 2)
      (by decide!) (by decide!)).2.1.trans (by decide!)⟩

/-- Claim C19 fails when the pending operand is `NaN` (after `5`, `±`,
backspace, `+`, `3`): a further operator stores `0 + 3 = 3` in `previousInput`,
while applying `+` to `NaN` and `3` gives `NaN`. -/
theorem operator_twice_counterexample :
    (run nanMath ["+", "3"] (backspace (run nanMath ["5", "±"] initial))).previousInput =
      some .nan ∧
    (run nanMath ["+", "3"] (backspace (run nanMath ["5", "±"] initial))).operator = "+" ∧
    (processInput nanMath "*"
      (run nanMath ["+", "3"] (backspace (run nanMath ["5", "±"] initial)))).previousInput =
      some (ofInt 3) ∧
    (processInput nanMath "*"
      (run nanMath ["+", "3"] (backspace (run nanMath ["5", "±"] initial)))).previousInput ≠
      some (performCalculation .nan
        (parseFloat (run nanMath ["+", "3"]
          (backspace (run nanMath ["5", "±"] initial))).currentInput) "+"
        (run nanMath ["+", "3"] (backspace (run nanMath ["5", "±"] initial)))).1 := by
  decide!

/-- The tokens whose handling does not involve the `Math` object. -/
theorem processInput_basic (M N : MathFns) (t : String) (s : State)
    (h : t.data.any Char.isDigit = true ∨ t ∈ [".", "+", "-", "*", "/", "=", "AC", "±", "%"]) :
    processInput M t s = processInput N t s := by
  rcases h with h | h
  · rw [processInput_digits M t s h, processInput_digits N t s h]
  · simp only [List.mem_cons, List.mem_singleton, List.not_mem_nil, or_false] at h
    rcases h with h | h | h | h | h | h | h | h | h <;> subst h <;> simp [processInput]

theorem run_basic (M N : MathFns) (ts : List String)
    (h : ∀ t ∈ ts, t.data.any Char.isDigit = true ∨
      t ∈ [".", "+", "-", "*", "/", "=", "AC", "±", "%"]) :
    ∀ s : State, run M ts s = run N ts s := by
  induction ts with
  | nil => intro s; rfl
  | cons t ts ih =>
    intro s
    rw [run_cons, run_cons, processInput_basic M N t s (h t (List.mem_cons_self _ _))]
    exact ih (fun u hu => h u (List.mem_cons_of_mem _ hu)) _

theorem operator_twice_eval :
    (run nanMath ["2", "+", "+"] initial).previousInput = some (ofInt 4) ∧
    (run nanMath ["2", "+", "+"] initial).currentInput = "4" := by
  decide!

/-- Claim C19, amended: with a pending operand `p` and a pending operator,
submitting a binary operator `op2` sets `previousInput` to the result of the
pending operator on `p || 0` and the parsed `currentInput` (on `p` itself when
`p` is neither `NaN` nor a zero), `operator` to `op2` and `waitingForOperand` to
true, whatever `waitingForOperand` was; `2 + +` from the initial state leaves
`previousInput = 4` and `currentInput = "4"`. -/
theorem operator_twice (M : MathFns) (s : State) (p : JSNum) (op2 : String)
    (hp : s.previousInput = some p) (ho : s.operator ≠ "")
    (hop : op2 ∈ ["+", "-", "*", "/"]) :
    (processInput M op2 s).previousInput =
      some (performCalculation (if p.truthy = true then p else ofInt 0)
        (parseFloat s.currentInput) s.operator s).1 ∧
    (p.truthy = true → (processInput M op2 s).previousInput =
      some (performCalculation p (parseFloat s.currentInput) s.operator s).1) ∧
    (processInput M op2 s).operator = op2 ∧
    (processInput M op2 s).waitingForOperand = true ∧
    (run M ["2", "+", "+"] initial).previousInput = some (ofInt 4) ∧
    (run M ["2", "+", "+"] initial).currentInput = "4" := by
  obtain ⟨h1, -, h3, h4⟩ := operator_resolves M op2 s p hop hp ho
  rw [run_basic M nanMath ["2", "+", "+"] (by decide) initial]
  refine ⟨h1, ?_, h3, h4, operator_twice_eval.1, operator_twice_eval.2⟩
  intro ht
  rw [h1, if_pos ht]

/-- Claim C19, amended, for `2 + +`. -/
theorem operator_twice_witness :
    (processInput nanMath "+" (run nanMath ["2", "+"] initial)).previousInput =
      some (ofInt 4) ∧
    (processInput nanMath "+" (run nanMath ["2", "+"] initial)).operator = "+" ∧
    (processInput nanMath "+" (run nanMath ["2", "+"] initial)).waitingForOperand = true :=
  ⟨(operator_twice nanMath (run nanMath ["2", "+"] initial) (ofInt 2) "+"
      (by decide!) (by decide!) (by decide)).1.trans (by decide!),
   (operator_twice nanMath (run nanMath ["2", "+"] initial) (ofInt 2) "+"
      (by decide!) (by decide!) (by decide)).2.2.1,
   (operator_twice nanMath (run nanMath ["2", "+"] initial) (ofInt 2) "+"
      (by decide!) (by decide!) (by decide)).2.2.2.1⟩



theorem rounding_eval :
    toFixed (ofInt 2) 7 = "2.0000000" ∧
    reformat (ofInt 2) = "2" ∧
    (run nanMath ["1", "/", "3", "="] initial).currentInput = "0.3333333" ∧
    (run nanMath ["2", "/", "3", "="] initial).currentInput = "0.6666667" ∧
    (run nanMath ["0", ".", "1", "+", "0", ".", "2", "="] initial).currentInput = "0.3" := by
  decide!

/-- Claim C16: after an accepted `=` or the resolution of a pending operator,
`currentInput` is the result passed through `toFixed(7)`, `parseFloat` and the
number-to-string conversion; an integer result below `2^53` in magnitude is
printed as that integer, so `2` is printed via `"2.0000000"` as `"2"`,
`1 / 3 =` gives `"0.3333333"`, `2 / 3 =` gives `"0.6666667"` and `0.1 + 0.2 =`
gives `"0.3"`. -/
theorem result_rounded_to_seven (M : MathFns) (s : State) (p : JSNum) (op2 : String)
    (hp : s.previousInput = some p) (ho : s.operator ≠ "")
    (hop : op2 ∈ ["+", "-", "*", "/"]) :
    (processInput M "=" s).currentInput =
      numToString (parseFloat (toFixed
        (performCalculation p (parseFloat s.currentInput) s.operator s).1 7)) ∧
    (processInput M op2 s).currentInput =
      numToString (parseFloat (toFixed
        (performCalculation (if p.truthy = true then p else ofInt 0)
          (parseFloat s.currentInput) s.operator s).1 7)) ∧
    (∀ z : Int, z.natAbs < 2 ^ 53 →
      numToString (parseFloat (toFixed (ofInt z) 7)) = Int.repr z) ∧
    toFixed (ofInt 2) 7 = "2.0000000" ∧
    numToString (parseFloat (toFixed (ofInt 2) 7)) = "2" ∧
    (run M ["1", "/", "3", "="] initial).currentInput = "0.3333333" ∧
    (run M ["2", "/", "3", "="] initial).currentInput = "0.6666667" ∧
    (run M ["0", ".", "1", "+", "0", ".", "2", "="] initial).currentInput = "0.3" := by
  obtain ⟨h1, -⟩ := equals_accepted M s p hp ho
  obtain ⟨-, h2, -⟩ := operator_resolves M op2 s p hop hp ho
  rw [run_basic M nanMath ["1", "/", "3", "="] (by decide) initial,
    run_basic M nanMath ["2", "/", "3", "="] (by decide) initial,
    run_basic M nanMath ["0", ".", "1", "+", "0", ".", "2", "="] (by decide) initial]
  exact ⟨h1, h2, fun z hz => reformat_ofInt z hz, rounding_eval.1, rounding_eval.2.1,
    rounding_eval.2.2.1, rounding_eval.2.2.2.1, rounding_eval.2.2.2.2⟩

/-- Claim C16 for `1 / 3 =` and for `2 / 3` followed by `+`. -/
theorem result_rounded_to_seven_witness :
    (processInput nanMath "=" (run nanMath ["1", "/", "3"] initial)).currentInput =
      "0.3333333" ∧
    (processInput nanMath "+" (run nanMath ["2", "/", "3"] initial)).currentInput =
      "0.6666667" :=
  ⟨(result_rounded_to_seven nanMath (run nanMath ["1", "/", "3"] initial) (ofInt 1) "+"
      (by decide!) (by decide!) (by decide)).1.trans (by decide!),
   (result_rounded_to_seven nanMath (run nanMath ["2", "/", "3"] initial) (ofInt 2) "+"
      (by decide!) (by decide!) (by decide)).2.1.trans (by decide!)⟩

/-! ## Decimal literal fragments -/

theorem fragmentBody_cons (c : Char) (r : List Char) :
    fragmentBody (c :: r) = if c = '-' then r else c :: r := by
  by_cases h : c = '-'
  · subst h; rfl
  · rw [if_neg h]
    unfold fragmentBody
    split
    · rename_i heq; injection heq with e1 e2; exact absurd e1 h
    · rfl

theorem fragmentBody_nil : fragmentBody [] = [] := rfl

theorem fragmentBody_append (cs t : List Char) (h : cs ≠ []) :
    fragmentBody (cs ++ t) = fragmentBody cs ++ t := by
  cases cs with
  | nil => exact absurd rfl h
  | cons c r =>
    rw [List.cons_append, fragmentBody_cons, fragmentBody_cons]
    split <;> rfl

theorem fragment_iff (s : String) :
    isDecimalFragment s = true ↔
      (∀ c ∈ fragmentBody s.data, c.isDigit = true ∨ c = '.') ∧
        (fragmentBody s.data).count '.' ≤ 1 := by
  unfold isDecimalFragment
  simp only [Bool.and_eq_true, List.all_eq_true, Bool.or_eq_true, beq_iff_eq,
    decide_eq_true_eq]

theorem fragment_digit (d : Char) (hd : d.isDigit = true) :
    isDecimalFragment (String.singleton d) = true := by
  rw [fragment_iff]
  have hne : d ≠ '-' := digit_ne d '-' hd (by decide)
  have hdot : d ≠ '.' := digit_ne d '.' hd (by decide)
  show (∀ c ∈ fragmentBody [d], _) ∧ (fragmentBody [d]).count '.' ≤ 1
  rw [fragmentBody_cons, if_neg hne]
  constructor
  · intro c hc
    simp only [List.mem_singleton] at hc
    subst hc; exact Or.inl hd
  · simp [List.count_cons, hdot]

theorem fragment_append_digit (s : String) (d : Char) (hd : d.isDigit = true)
    (h : isDecimalFragment s = true) :
    isDecimalFragment (s ++ String.singleton d) = true := by
  by_cases hs : s.data = []
  · have : s ++ String.singleton d = String.singleton d := by
      apply String.ext
      show s.data ++ [d] = [d]
      rw [hs]; rfl
    rw [this]; exact fragment_digit d hd
  · rw [fragment_iff] at h ⊢
    have hdot : d ≠ '.' := digit_ne d '.' hd (by decide)
    show (∀ c ∈ fragmentBody (s.data ++ [d]), _) ∧ (fragmentBody (s.data ++ [d])).count '.' ≤ 1
    rw [fragmentBody_append _ _ hs]
    constructor
    · intro c hc
      rw [List.mem_append] at hc
      rcases hc with hc | hc
      · exact h.1 c hc
      · simp only [List.mem_singleton] at hc
        subst hc; exact Or.inl hd
    · rw [List.count_append]
      have : [d].count '.' = 0 := by simp [List.count_cons, hdot]
      omega

theorem fragmentBody_subset (cs : List Char) : ∀ c ∈ fragmentBody cs, c ∈ cs := by
  cases cs with
  | nil => intro c hc; exact hc
  | cons a r =>
    rw [fragmentBody_cons]
    split
    · intro c hc; exact List.mem_cons_of_mem _ hc
    · intro c hc; exact hc

theorem fragment_append_dot (s : String) (hdot : '.' ∉ s.data)
    (h : isDecimalFragment s = true) :
    isDecimalFragment (s ++ ".") = true := by
  rw [fragment_iff] at h ⊢
  have hcount : (fragmentBody s.data).count '.' = 0 := by
    rw [List.count_eq_zero]
    intro hm; exact hdot (fragmentBody_subset _ _ hm)
  by_cases hs : s.data = []
  · show (∀ c ∈ fragmentBody (s.data ++ ['.']), _) ∧
      (fragmentBody (s.data ++ ['.'])).count '.' ≤ 1
    rw [hs]
    decide
  · show (∀ c ∈ fragmentBody (s.data ++ ['.']), _) ∧
      (fragmentBody (s.data ++ ['.'])).count '.' ≤ 1
    rw [fragmentBody_append _ _ hs]
    constructor
    · intro c hc
      rw [List.mem_append] at hc
      rcases hc with hc | hc
      · exact h.1 c hc
      · simp only [List.mem_singleton] at hc
        exact Or.inr hc
    · rw [List.count_append, hcount]
      decide

theorem fragmentBody_of_allowed (r : List Char)
    (h : ∀ c ∈ r, c.isDigit = true ∨ c = '.') : fragmentBody r = r := by
  cases r with
  | nil => rfl
  | cons a t =>
    rw [fragmentBody_cons]
    have ha := h a (List.mem_cons_self _ _)
    have hne : a ≠ '-' := by
      rcases ha with ha | ha
      · exact digit_ne a '-' ha (by decide)
      · rw [ha]; decide
    rw [if_neg hne]

theorem fragment_toggle (s : String) (h : isDecimalFragment s = true) :
    isDecimalFragment (if s.data.head? = some '-' then String.mk (s.data.drop 1)
      else "-" ++ s) = true := by
  rw [fragment_iff] at h
  obtain ⟨l⟩ := s
  cases l with
  | nil =>
    simp only [List.head?, if_false]
    decide
  | cons a t =>
    by_cases ha : a = '-'
    · subst ha
      have hb : fragmentBody ('-' :: t) = t := rfl
      simp only [hb] at h
      simp only [List.head?, if_true, List.drop_succ_cons, List.drop_zero]
      rw [fragment_iff]
      show (∀ c ∈ fragmentBody t, _) ∧ (fragmentBody t).count '.' ≤ 1
      rw [fragmentBody_of_allowed t h.1]
      exact h
    · have hh : ¬ ((a :: t).head? = some '-') := by simp [ha]
      have hb : fragmentBody (a :: t) = a :: t := by rw [fragmentBody_cons, if_neg ha]
      simp only [hb] at h
      simp only [hh, if_false]
      rw [fragment_iff]
      show (∀ c ∈ fragmentBody ('-' :: a :: t), _) ∧ (fragmentBody ('-' :: a :: t)).count '.' ≤ 1
      exact h

theorem fragment_dropLast (s : String) (h : isDecimalFragment s = true) :
    isDecimalFragment (String.mk s.data.dropLast) = true := by
  rw [fragment_iff] at h ⊢
  obtain ⟨l⟩ := s
  show (∀ c ∈ fragmentBody l.dropLast, _) ∧ (fragmentBody l.dropLast).count '.' ≤ 1
  have key : List.Sublist (fragmentBody l.dropLast) (fragmentBody l) := by
    cases l with
    | nil => exact List.Sublist.refl _
    | cons a t =>
      cases t with
      | nil =>
        show List.Sublist (fragmentBody []) _
        exact List.nil_sublist _
      | cons b u =>
        rw [List.dropLast_cons₂, fragmentBody_cons, fragmentBody_cons]
        split
        · exact List.dropLast_sublist _
        · exact (List.dropLast_sublist (b :: u)).cons₂ a
  exact ⟨fun c hc => h.1 c (key.subset hc), le_trans (key.count_le _) h.2⟩

theorem processInput_sign (M : MathFns) (s : State) :
    processInput M "±" s = updateDisplay (toggleSign (clearError s)) := by
  simp [processInput]

theorem processInput_clear (M : MathFns) (s : State) :
    processInput M "AC" s = updateDisplay (clear (clearError s)) := by
  simp [processInput]

theorem fragment_zero : isDecimalFragment "0" = true := by decide

/-- One editing event keeps `currentInput` a decimal literal fragment. -/
theorem step_fragment (M : MathFns) (a : Action) (s : State) (ha : isEditing a = true)
    (hw : s.waitingForOperand = false) (hf : isDecimalFragment s.currentInput = true) :
    (step M a s).waitingForOperand = false ∧
    isDecimalFragment (step M a s).currentInput = true := by
  cases a with
  | backspace =>
    show (backspace s).waitingForOperand = false ∧
      isDecimalFragment (backspace s).currentInput = true
    unfold backspace updateDisplay
    split
    · exact ⟨hw, fragment_dropLast _ hf⟩
    · exact ⟨hw, fragment_zero⟩
  | submit token =>
    show (processInput M token s).waitingForOperand = false ∧
      isDecimalFragment (processInput M token s).currentInput = true
    simp only [isEditing, decide_eq_true_eq] at ha
    have hdigit : ∀ d : Char, d.isDigit = true →
        (processInput M (String.singleton d) s).waitingForOperand = false ∧
        isDecimalFragment (processInput M (String.singleton d) s).currentInput = true := by
      intro d hd
      obtain ⟨h1, h2⟩ := digit_step M d s hd hw
      refine ⟨h1, ?_⟩
      rw [h2]
      split
      · exact fragment_digit d hd
      · exact fragment_append_digit _ d hd hf
    simp only [List.mem_cons, List.mem_singleton, List.not_mem_nil, or_false] at ha
    rcases ha with h | h | h | h | h | h | h | h | h | h | h | h | h <;> subst h
    · exact hdigit '0' (by decide)
    · exact hdigit '1' (by decide)
    · exact hdigit '2' (by decide)
    · exact hdigit '3' (by decide)
    · exact hdigit '4' (by decide)
    · exact hdigit '5' (by decide)
    · exact hdigit '6' (by decide)
    · exact hdigit '7' (by decide)
    · exact hdigit '8' (by decide)
    · exact hdigit '9' (by decide)
    · rw [processInput_decimal]
      have hw' : (clearError s).waitingForOperand = false := hw
      unfold inputDecimal updateDisplay
      simp only [hw', Bool.false_eq_true, if_false]
      split
      · exact ⟨rfl, fragment_append_dot _ (by assumption) hf⟩
      · exact ⟨hw, hf⟩
    · rw [processInput_sign]
      unfold toggleSign updateDisplay
      split
      · exact ⟨hw, fragment_toggle _ hf⟩
      · exact ⟨hw, hf⟩
    · rw [processInput_clear]
      exact ⟨rfl, fragment_zero⟩

/-- Claim C11 fails: `1 % % % %` leaves `"1e-8"`, which is not a decimal
literal fragment, and `5`, `±`, backspace, `±` leaves the empty string. -/
theorem fragment_invariant_counterexample :
    (runActions nanMath [.submit "1", .submit "%", .submit "%", .submit "%", .submit "%"]
      initial).currentInput = "1e-8" ∧
    isDecimalFragment "1e-8" = false ∧
    (runActions nanMath [.submit "5", .submit "±", .backspace, .submit "±"]
      initial).currentInput = "" := by
  decide!

/-- Claim C11, amended: in every state reached from the initial state by digit
tokens, `.`, `±`, `AC` and backspaces, `currentInput` is a decimal literal
fragment: an optional leading `-`, then only digits and at most one `.`. -/
theorem fragment_invariant (M : MathFns) (actions : List Action)
    (h : ∀ a ∈ actions, isEditing a = true) :
    isDecimalFragment (runActions M actions initial).currentInput = true := by
  have key : (runActions M actions initial).waitingForOperand = false ∧
      isDecimalFragment (runActions M actions initial).currentInput = true := by
    induction actions using List.reverseRecOn with
    | nil => exact ⟨rfl, fragment_zero⟩
    | append_singleton as a ih =>
      rw [runActions_snoc]
      have h1 : ∀ b ∈ as, isEditing b = true :=
        fun b hb => h b (List.mem_append_left _ hb)
      have h2 : isEditing a = true := h a (List.mem_append_right _ (List.mem_singleton_self a))
      obtain ⟨hw, hf⟩ := ih h1
      exact step_fragment M a _ h2 hw hf
  exact key.2

/-- Claim C11, amended, after `5 . 2 ±` and a backspace. -/
theorem fragment_invariant_witness :
    isDecimalFragment (runActions nanMath
      [.submit "5", .submit ".", .submit "2", .submit "±", .backspace] initial).currentInput =
      true :=
  fragment_invariant nanMath [.submit "5", .submit ".", .submit "2", .submit "±", .backspace]
    (by decide)

/-! ## The display formatter -/

theorem pow_le_of_digitsOf_length (n : Nat) (hn : 0 < n) :
    10 ^ ((digitsOf n).length - 1) ≤ n := by
  induction n using Nat.strong_induction_on with
  | _ n ih =>
    by_cases h : n < 10
    · rw [digitsOf_small n h]
      simpa using hn
    · rw [digitsOf_step n (by omega), List.length_append, List.length_singleton,
        Nat.add_sub_cancel]
      have h1 := ih (n / 10) (by omega) (by omega)
      have hlen : 1 ≤ (digitsOf (n / 10)).length := by
        have := digitsOf_ne_nil (n / 10)
        cases hd : digitsOf (n / 10) with
        | nil => exact absurd hd this
        | cons c cs => simp
      have e : (digitsOf (n / 10)).length = ((digitsOf (n / 10)).length - 1) + 1 := by omega
      rw [e, pow_succ]
      omega

theorem digitsOf_length_eq (n k : Nat) (hlo : 10 ^ k ≤ n) (hhi : n < 10 ^ (k + 1)) :
    (digitsOf n).length = k + 1 := by
  have h1 := digitsOf_length_le n (k + 1) (by omega) hhi
  have h2 := lt_pow_digitsOf_length n
  have h3 : k < (digitsOf n).length := by
    by_contra hcon
    have : 10 ^ (digitsOf n).length ≤ 10 ^ k :=
      Nat.pow_le_pow_right (by decide) (by omega)
    omega
  omega

/-- The decimal exponent brackets the value: with `e = f + 1 - decExp x` the
scaled value `x * 10^e` lies in `[10^f, 10^(f+1))`. -/
theorem scaled_decExp_bounds (x f : Nat) (hx : 0 < x) :
    10 ^ f * (scaled x ((f : Int) - (decExp x - 1))).2 ≤
      (scaled x ((f : Int) - (decExp x - 1))).1 ∧
    (scaled x ((f : Int) - (decExp x - 1))).1 <
      10 ^ (f + 1) * (scaled x ((f : Int) - (decExp x - 1))).2 := by
  unfold decExp scaled
  by_cases hone : one ≤ x
  · rw [if_pos hone]
    have hq : 0 < x / one := Nat.div_pos hone one_pos
    have hlo := pow_le_of_digitsOf_length (x / one) hq
    have hhi := lt_pow_digitsOf_length (x / one)
    generalize (digitsOf (x / one)).length = L at hlo hhi
    have hL : 1 ≤ L := by
      rcases Nat.eq_zero_or_pos L with h0 | h0
      · subst h0; simp at hhi; omega
      · exact h0
    have hlo' : 10 ^ (L - 1) * one ≤ x :=
      le_trans (Nat.mul_le_mul_right _ hlo) (Nat.div_mul_le_self x one)
    have hhi' : x < 10 ^ L * one := by
      have := Nat.lt_succ_iff.mpr (le_refl (x / one))
      have h1 : x < (x / one + 1) * one := by
        have := Nat.div_add_mod x one
        have := Nat.mod_lt x one_pos
        rw [Nat.add_mul, Nat.one_mul, Nat.mul_comm]
        omega
      exact lt_of_lt_of_le h1 (Nat.mul_le_mul_right _ hhi)
    by_cases hLf : L ≤ f + 1
    · have e1 : ((f : Int) - ((L : Int) - 1)).toNat = f + 1 - L := by omega
      have e2 : (-((f : Int) - ((L : Int) - 1))).toNat = 0 := by omega
      simp only [e1, e2, pow_zero, Nat.mul_one]
      have p1 : 10 ^ f = 10 ^ (L - 1) * 10 ^ (f + 1 - L) := by
        rw [← pow_add]; congr 1; omega
      have p2 : 10 ^ (f + 1) = 10 ^ L * 10 ^ (f + 1 - L) := by
        rw [← pow_add]; congr 1; omega
      have hpos : 0 < 10 ^ (f + 1 - L) := by positivity
      constructor
      · rw [p1]
        calc 10 ^ (L - 1) * 10 ^ (f + 1 - L) * one
            = 10 ^ (L - 1) * one * 10 ^ (f + 1 - L) := by ring
          _ ≤ x * 10 ^ (f + 1 - L) := Nat.mul_le_mul_right _ hlo'
      · rw [p2]
        calc x * 10 ^ (f + 1 - L) < 10 ^ L * one * 10 ^ (f + 1 - L) :=
              Nat.mul_lt_mul_of_pos_right hhi' hpos
          _ = 10 ^ L * 10 ^ (f + 1 - L) * one := by ring
    · have e1 : ((f : Int) - ((L : Int) - 1)).toNat = 0 := by omega
      have e2 : (-((f : Int) - ((L : Int) - 1))).toNat = L - (f + 1) := by omega
      simp only [e1, e2, pow_zero, Nat.mul_one]
      have p1 : 10 ^ (L - 1) = 10 ^ f * 10 ^ (L - (f + 1)) := by
        rw [← pow_add]; congr 1; omega
      have p2 : 10 ^ L = 10 ^ (f + 1) * 10 ^ (L - (f + 1)) := by
        rw [← pow_add]; congr 1; omega
      constructor
      · calc 10 ^ f * (one * 10 ^ (L - (f + 1)))
            = 10 ^ f * 10 ^ (L - (f + 1)) * one := by ring
          _ = 10 ^ (L - 1) * one := by rw [← p1]
          _ ≤ x := hlo'
      · calc x < 10 ^ L * one := hhi'
          _ = 10 ^ (f + 1) * 10 ^ (L - (f + 1)) * one := by rw [← p2]
          _ = 10 ^ (f + 1) * (one * 10 ^ (L - (f + 1))) := by ring
  · rw [if_neg hone]
    have hxo : x ≤ one - 1 := by omega
    have hq : 0 < (one - 1) / x := Nat.div_pos hxo hx
    have hlo := pow_le_of_digitsOf_length ((one - 1) / x) hq
    have hhi := lt_pow_digitsOf_length ((one - 1) / x)
    generalize (digitsOf ((one - 1) / x)).length = L at hlo hhi
    have hL : 1 ≤ L := by
      rcases Nat.eq_zero_or_pos L with h0 | h0
      · subst h0; simp at hhi; omega
      · exact h0
    have h1 : one ≤ x * 10 ^ L := by
      have ha : one - 1 < x * ((one - 1) / x + 1) := by
        have := Nat.div_add_mod (one - 1) x
        have := Nat.mod_lt (one - 1) hx
        rw [Nat.mul_add, Nat.mul_one]
        omega
      have hb : x * ((one - 1) / x + 1) ≤ x * 10 ^ L := Nat.mul_le_mul_left _ hhi
      omega
    have h2 : x * 10 ^ (L - 1) < one := by
      have ha : x * 10 ^ (L - 1) ≤ x * ((one - 1) / x) := Nat.mul_le_mul_left _ hlo
      have hb : x * ((one - 1) / x) ≤ one - 1 := Nat.mul_div_le _ _
      have := one_pos
      omega
    have e1 : ((f : Int) - (1 - (L : Int) - 1)).toNat = f + L := by omega
    have e2 : (-((f : Int) - (1 - (L : Int) - 1))).toNat = 0 := by omega
    simp only [e1, e2, pow_zero, Nat.mul_one]
    constructor
    · calc 10 ^ f * one ≤ 10 ^ f * (x * 10 ^ L) := Nat.mul_le_mul_left _ h1
        _ = x * 10 ^ (f + L) := by rw [pow_add]; ring
    · have p : 10 ^ (f + L) = 10 ^ (L - 1) * 10 ^ (f + 1) := by
        rw [← pow_add]; congr 1; omega
      calc x * 10 ^ (f + L) = x * 10 ^ (L - 1) * 10 ^ (f + 1) := by rw [p]; ring
        _ < one * 10 ^ (f + 1) := Nat.mul_lt_mul_of_pos_right h2 (by positivity)
        _ = 10 ^ (f + 1) * one := by ring

theorem roundHalfUp_bounds (p q lo hi : Nat) (hq : 0 < q) (h1 : lo * q ≤ p) (h2 : p < hi * q) :
    lo ≤ roundHalfUp p q ∧ roundHalfUp p q ≤ hi := by
  have a : lo ≤ p / q := (Nat.le_div_iff_mul_le hq).mpr h1
  have b : p / q < hi := (Nat.div_lt_iff_lt_mul hq).mpr h2
  unfold roundHalfUp
  split <;> omega

theorem scaled_den_pos (x : Nat) (e : Int) : 0 < (scaled x e).2 := by
  unfold scaled
  exact Nat.mul_pos one_pos (by positivity)

/-- The seven significant digits printed by `toExponential(6)`. -/
theorem exponential_digits (mag : Nat) (hmag : mag ≠ 0) :
    (digitsOf (if roundHalfUp (scaled mag ((6 : Nat) - (decExp mag - 1))).1
          (scaled mag ((6 : Nat) - (decExp mag - 1))).2 = 10 ^ (6 + 1) then 10 ^ 6
        else roundHalfUp (scaled mag ((6 : Nat) - (decExp mag - 1))).1
          (scaled mag ((6 : Nat) - (decExp mag - 1))).2)).length = 7 := by
  obtain ⟨h1, h2⟩ := scaled_decExp_bounds mag 6 (Nat.pos_of_ne_zero hmag)
  obtain ⟨b1, b2⟩ := roundHalfUp_bounds _ _ _ _ (scaled_den_pos mag _) h1 h2
  split
  · exact digitsOf_length_eq _ 6 (le_refl _) (by norm_num)
  · rename_i hne
    exact digitsOf_length_eq _ 6 b1 (lt_of_le_of_ne b2 hne)

theorem list_length_seven (m : List Char) (h : m.length = 7) :
    ∃ d frac, m = d :: frac ∧ frac.length = 6 := by
  cases m with
  | nil => simp at h
  | cons d frac => exact ⟨d, frac, rfl, by simpa using h⟩

/-- The shape of `toExponential(6)` on a finite number: an optional sign, one
digit, a point, six digits, `e`, a sign and the digits of the exponent. -/
theorem toExponential_six (neg : Bool) (mag : Nat) :
    ∃ (sgn : List Char) (d : Char) (frac : List Char) (esgn : Char) (expo : List Char),
      toExponential (.fin neg mag) 6 =
        String.mk (sgn ++ d :: '.' :: frac ++ 'e' :: esgn :: expo) ∧
      (sgn = [] ∨ sgn = ['-']) ∧ d.isDigit = true ∧ frac.length = 6 ∧
      (∀ c ∈ frac, c.isDigit = true) ∧ (esgn = '+' ∨ esgn = '-') ∧
      expo ≠ [] ∧ (∀ c ∈ expo, c.isDigit = true) := by
  have hsgn : ∀ P : Prop, [Decidable P] → ((if P then ['-'] else []) = ([] : List Char) ∨
      (if P then ['-'] else []) = ['-']) := by
    intro P _; by_cases h : P <;> simp [h]
  have hes : ∀ P : Prop, [Decidable P] → ∃ c : Char, (if P then ['-'] else ['+']) = [c] ∧
      (c = '+' ∨ c = '-') := by
    intro P _; by_cases h : P
    · exact ⟨'-', by simp [h], Or.inr rfl⟩
    · exact ⟨'+', by simp [h], Or.inl rfl⟩
  by_cases hmag : mag = 0
  · subst hmag
    obtain ⟨c, hc, hc'⟩ := hes ((0 : Int) < 0)
    refine ⟨[], '0', List.replicate 6 '0', '+', ['0'], ?_, Or.inl rfl, by decide, by decide,
      by decide, Or.inl rfl, by decide, by decide⟩
    cases neg <;> decide
  · have h7 : (6 : Nat) ≠ 0 := by decide
    have hlen := exponential_digits mag hmag
    have hdig := digitsOf_isDigit
      (if roundHalfUp (scaled mag ((6 : Nat) - (decExp mag - 1))).1
          (scaled mag ((6 : Nat) - (decExp mag - 1))).2 = 10 ^ (6 + 1) then 10 ^ 6
        else roundHalfUp (scaled mag ((6 : Nat) - (decExp mag - 1))).1
          (scaled mag ((6 : Nat) - (decExp mag - 1))).2)
    obtain ⟨d, frac, hm, hfrac⟩ := list_length_seven _ hlen
    rw [hm] at hdig
    simp only [toExponential, hmag, if_false, h7]
    rw [hm]
    generalize (if roundHalfUp (scaled mag ((6 : Nat) - (decExp mag - 1))).1
          (scaled mag ((6 : Nat) - (decExp mag - 1))).2 = 10 ^ (6 + 1) then decExp mag - 1 + 1
        else decExp mag - 1) = E
    obtain ⟨c, hc, hc'⟩ := hes (E < 0)
    rw [hc]
    refine ⟨if neg = true ∧ mag ≠ 0 then ['-'] else [], d, frac, c, digitsOf E.natAbs, ?_,
      hsgn (neg = true ∧ mag ≠ 0), hdig d (List.mem_cons_self _ _), hfrac,
      fun x hx => hdig x (List.mem_cons_of_mem _ hx), hc', digitsOf_ne_nil _,
      digitsOf_isDigit _⟩
    simp [hmag]

theorem formatNumber_example : formatNumber "1234567890123" = "1.234568e+12" := by
  decide!

/-- Claim C15 fails for the string of 310 nines: it is numeric, longer than 12
characters and typed digit by digit from the initial state, its value overflows
to `Infinity`, and `formatNumber` renders it as `"Infinity"`, which is not
exponential notation. -/
theorem formatNumber_overflow_counterexample :
    12 < (String.mk (List.replicate 310 '9')).length ∧
    (∀ c ∈ (String.mk (List.replicate 310 '9')).data, c.isDigit = true) ∧
    parseFloat (String.mk (List.replicate 310 '9')) = .inf false ∧
    formatNumber (String.mk (List.replicate 310 '9')) = "Infinity" ∧
    (run nanMath (List.replicate 310 "9") initial).currentInput =
      String.mk (List.replicate 310 '9') ∧
    (run nanMath (List.replicate 310 "9") initial).display = "Infinity" := by
  decide!

/-- Claim C15, amended: `formatNumber` returns a string of at most 12 characters
unchanged; a longer string whose value is a finite number is rendered by
`toExponential(6)`: an optional sign, one digit, a point, exactly six digits,
`e`, a sign and the exponent; `"1234567890123"` renders as `"1.234568e+12"`;
`updateDisplay` leaves `currentInput` unchanged.  A longer string whose value
is infinite renders as `"Infinity"` or `"-Infinity"`, and one with no numeric
value renders as `"NaN"`. -/
theorem formatNumber_spec (s : String) (st : State) :
    (s.length ≤ 12 → formatNumber s = s) ∧
    (12 < s.length → ∀ (neg : Bool) (mag : Nat), parseFloat s = .fin neg mag →
      formatNumber s = toExponential (.fin neg mag) 6 ∧
      ∃ (sgn : List Char) (d : Char) (frac : List Char) (esgn : Char) (expo : List Char),
        formatNumber s = String.mk (sgn ++ d :: '.' :: frac ++ 'e' :: esgn :: expo) ∧
        (sgn = [] ∨ sgn = ['-']) ∧ d.isDigit = true ∧ frac.length = 6 ∧
        (∀ c ∈ frac, c.isDigit = true) ∧ (esgn = '+' ∨ esgn = '-') ∧
        expo ≠ [] ∧ (∀ c ∈ expo, c.isDigit = true)) ∧
    formatNumber "1234567890123" = "1.234568e+12" ∧
    (updateDisplay st).currentInput = st.currentInput ∧
    (12 < s.length → ∀ neg : Bool, parseFloat s = .inf neg →
      formatNumber s = if neg = true then "-Infinity" else "Infinity") ∧
    (12 < s.length → parseFloat s = .nan → formatNumber s = "NaN") := by
  refine ⟨?_, ?_, formatNumber_example, rfl, ?_, ?_⟩
  · intro h
    unfold formatNumber
    rw [if_neg (by omega)]
  · intro h neg mag hp
    have hf : formatNumber s = toExponential (.fin neg mag) 6 := by
      unfold formatNumber
      rw [if_pos (by omega), hp]
    refine ⟨hf, ?_⟩
    rw [hf]
    exact toExponential_six neg mag
  · intro h neg hp
    unfold formatNumber
    rw [if_pos (by omega), hp]
    rfl
  · intro h hp
    unfold formatNumber
    rw [if_pos (by omega), hp]
    rfl

/-- Claim C15, amended, for the strings `"123456789012"` (12 characters) and
`"1234567890123"` (13 characters). -/
theorem formatNumber_spec_witness :
    formatNumber "123456789012" = "123456789012" ∧
    formatNumber "1234567890123" = toExponential (ofInt 1234567890123) 6 :=
  ⟨(formatNumber_spec "123456789012" initial).1 (by decide),
   ((formatNumber_spec "1234567890123" initial).2.1 (by decide) false
      (1234567890123 * one) (by decide!)).1⟩

end Calculator
